import Mathlib

/-!
Verification development for the resolver-engine import utilities
(packages/imports/src/utils.ts).

The development shallowly embeds:
 * findImports - the regex scan that extracts import literals from a
   source text, modelled as a backtracking matcher with exactly the
   semantics of the JavaScript regex in the source, including the
   greedy, leftmost, global-exec behaviour;
 * the Node path module functions used by the source (posix semantics):
   path.join, path.dirname, path.resolve, including the segment-stack
   normalization that Node performs;
 * the JavaScript String.replace(searchString, replaceString) operation,
   which replaces only the first occurrence and performs dollar-pattern
   substitution in the replacement string;
 * gatherSources - the breadth-first flattening gatherer, including the
   for-in loop over the found imports whose loop variable is the array
   index string;
 * gatherDepenencyTree / canonizeFile / stripNodes /
   gatherSourcesAndCanonizeImports - the dependency-tree builder and the
   canonicalizer; the builder is given both as the sequential semantics
   of a single dfs chain and as a small-step machine with the FIFO
   microtask interleaving that Promise.all produces for resolvers whose
   promises are already settled.

Resolver calls are external collaborators; they are modelled as a
structure of two functions returning Except values.  Traversals carry
fuel; fuel exhaustion is reported as a distinguished outcome so that
termination statements are meaningful.
-/

set_option maxRecDepth 16384

namespace RE

/-! ## Characters and character classes of the JavaScript regex -/

/-- The forward slash character. -/
def sl : Char := Char.ofNat 47

/-- The double quote character. -/
def dq : Char := Char.ofNat 34

/-- The single quote character. -/
def sq : Char := Char.ofNat 39

/-- The dollar character, special in JavaScript replacement strings. -/
def dollarC : Char := Char.ofNat 36

/-- The backtick character, special in JavaScript replacement strings. -/
def backqC : Char := Char.ofNat 96

/-- Code points matched by the JavaScript regex class backslash-s. -/
def wsCodes : List Nat :=
  [9, 10, 11, 12, 13, 32, 160, 0x1680, 0x2000, 0x2001, 0x2002, 0x2003,
   0x2004, 0x2005, 0x2006, 0x2007, 0x2008, 0x2009, 0x200a, 0x2028,
   0x2029, 0x202f, 0x205f, 0x3000, 0xfeff]

/-- Whether a character is whitespace for the JavaScript regex class backslash-s. -/
def isWs (c : Char) : Bool := c.toNat ∈ wsCodes

/-- Whether a character is matched by the JavaScript regex dot
(dotAll is not set on the regex in the source): every character except
line terminators. -/
def isRegexDot (c : Char) : Bool :=
  !(c.toNat = 10 || c.toNat = 13 || c.toNat = 0x2028 || c.toNat = 0x2029)

/-! ## The findImports matcher

The source regex is
`import\s+(?:(?:"([^;]*)"|'([^;]*)')(?:;|\s+as\s+[^;]*;)|.+from\s+(?:"(.*)"|'(.*)');)`
with the global flag.  The matcher below is a direct defunctionalization
of its backtracking search: each function returns the remainder of the
input after the match together with the captured literal, and
alternatives are tried in the preference order of the regex (greedy
quantifiers prefer longer matches, alternations prefer the left arm). -/

/-- Matches the statement terminator `(?:;|\s+as\s+[^;]*;)` of the first
alternative; returns the remainder after the terminator.  The two inner
greedy quantifiers are deterministic here because the character that has
to follow them can never belong to their class. -/
def impTerm (s : List Char) : Option (List Char) :=
  match s with
  | [] => none
  | c :: rest =>
    if c = ';' then some rest
    else if isWs c then
      match (c :: rest).dropWhile isWs with
      | 'a' :: 's' :: s2 =>
        match s2 with
        | c2 :: _ =>
          if isWs c2 then
            match s2.dropWhile isWs |>.dropWhile (fun d => d ≠ ';') with
            | ';' :: s5 => some s5
            | _ => none
          else none
        | [] => none
      | _ => none
    else none

/-- Matches `[^;]*` greedily, followed by the closing quote `q` and then
the statement terminator; returns the remainder and the captured
content.  Longer contents are preferred, mirroring the greedy
quantifier. -/
def quotedThenTerm (q : Char) : List Char → Option (List Char × List Char)
  | [] => none
  | c :: rest =>
    let ext : Option (List Char × List Char) :=
      if c = ';' then none
      else match quotedThenTerm q rest with
        | some (rem, cs) => some (rem, c :: cs)
        | none => none
    match ext with
    | some x => some x
    | none =>
      if c = q then (impTerm rest).map (fun r => (r, ([] : List Char)))
      else none

/-- The first alternative of the regex body:
`(?:"([^;]*)"|'([^;]*)')(?:;|\s+as\s+[^;]*;)`. -/
def alt1 : List Char → Option (List Char × List Char)
  | [] => none
  | c :: rest =>
    if c = dq then quotedThenTerm dq rest
    else if c = sq then quotedThenTerm sq rest
    else none

/-- Matches `(.*)` greedily followed by the closing quote `q` and a
semicolon, for the `from` form; returns remainder and capture. -/
def dotStarClose (q : Char) : List Char → Option (List Char × List Char)
  | [] => none
  | c :: rest =>
    let ext : Option (List Char × List Char) :=
      if isRegexDot c then
        match dotStarClose q rest with
        | some (rem, cs) => some (rem, c :: cs)
        | none => none
      else none
    match ext with
    | some x => some x
    | none =>
      if c = q then
        match rest with
        | ';' :: r2 => some (r2, ([] : List Char))
        | _ => none
      else none

/-- Matches `from\s+(?:"(.*)"|'(.*)');`.  The whitespace quantifier is
deterministic because a quote is never whitespace. -/
def fromClause (s : List Char) : Option (List Char × List Char) :=
  match s with
  | 'f' :: 'r' :: 'o' :: 'm' :: s1 =>
    match s1 with
    | c :: _ =>
      if isWs c then
        match s1.dropWhile isWs with
        | c2 :: s2 =>
          if c2 = dq then dotStarClose dq s2
          else if c2 = sq then dotStarClose sq s2
          else none
        | [] => none
      else none
    | [] => none
  | _ => none

/-- The second alternative of the regex body: `.+from\s+(?:"(.*)"|'(.*)');`.
Longer matches of `.+` are preferred. -/
def dotPlusFrom : List Char → Option (List Char × List Char)
  | [] => none
  | c :: rest =>
    if isRegexDot c then
      match dotPlusFrom rest with
      | some x => some x
      | none => fromClause rest
    else none

/-- Matches `\s+` (at least one whitespace character) followed by the
regex body, preferring to consume more whitespace, with the body
alternatives tried left to right at each split. -/
def wsThenBody : List Char → Option (List Char × List Char)
  | [] => none
  | c :: rest =>
    if isWs c then
      match wsThenBody rest with
      | some x => some x
      | none =>
        match alt1 rest with
        | some x => some x
        | none => dotPlusFrom rest
    else none

/-- Attempts the whole regex at the current position: the literal
`import`, then whitespace, then the body. -/
def matchImportAt (s : List Char) : Option (List Char × List Char) :=
  match s with
  | 'i' :: 'm' :: 'p' :: 'o' :: 'r' :: 't' :: s1 => wsThenBody s1
  | _ => none

/-- The global exec loop: the leftmost match wins, scanning resumes at
the end of each match.  The fuel is an upper bound on the number of scan
steps; every step consumes at least one character, so the input length
is always enough fuel. -/
def scanImports : Nat → List Char → List (List Char)
  | 0, _ => []
  | _, [] => []
  | fuel + 1, s =>
    match s with
    | [] => []
    | _ :: rest =>
      match matchImportAt s with
      | some (rem, cap) => cap :: scanImports fuel rem
      | none => scanImports fuel rest

/-! ## The Node posix path functions used by the source

The source uses path.join, path.dirname and path.resolve.  These are the
posix implementations from the Node path module.  Node normalizes a
joined path with an internal normalizeString routine; the segment-stack
formulation below is its standard semantics: empty segments and single
dots are dropped, a double dot pops the last retained segment, and when
nothing can be popped it is kept only when allowAboveRoot is set. -/

/-- Splits a character list on the slash character, keeping empty
segments, exactly as the string split in Node does. -/
def splitSlash : List Char → List (List Char)
  | [] => [[]]
  | c :: rest =>
    let r := splitSlash rest
    if c = sl then [] :: r
    else
      match r with
      | h :: tl => (c :: h) :: tl
      | [] => [[c]]

/-- One step of the segment-stack normalization.  The stack is kept in
reverse order (most recent segment first). -/
def normStep (allowAboveRoot : Bool) (stack : List (List Char)) (seg : List Char) :
    List (List Char) :=
  if seg = [] ∨ seg = ['.'] then stack
  else if seg = ['.', '.'] then
    match stack with
    | top :: rest => if top = ['.', '.'] then seg :: stack else rest
    | [] => if allowAboveRoot then [seg] else []
  else seg :: stack

/-- Normalizes a list of path segments with the Node semantics; returns
the retained segments in order. -/
def normStack (allowAboveRoot : Bool) (segs : List (List Char)) : List (List Char) :=
  (segs.foldl (normStep allowAboveRoot) []).reverse

/-- Whether a string starts with a slash. -/
def isAbsS (s : String) : Bool := s.data.head? = some sl

/-- Models path.posix.normalize from Node. -/
def pathNormalize (p : String) : String :=
  if p = "" then "."
  else
    let isAbs := isAbsS p
    let trailingSep := p.data.getLast? = some sl
    let core := List.intercalate [sl] (normStack (!isAbs) (splitSlash p.data))
    if core = [] then
      if isAbs then "/" else if trailingSep then "./" else "."
    else
      let core := if trailingSep then core ++ [sl] else core
      if isAbs then String.mk (sl :: core) else String.mk core

/-- Models path.posix.join from Node for the two-argument form used in
the source: the nonempty arguments are joined with a slash and the
result is normalized. -/
def pathJoin (a b : String) : String :=
  if a = "" ∧ b = "" then "."
  else if a = "" then pathNormalize b
  else if b = "" then pathNormalize a
  else pathNormalize (a ++ "/" ++ b)

/-- Models path.posix.resolve from Node for the two-argument form used
in the source.  When neither argument is absolute Node would prepend
process.cwd(); that fallback is modelled as the root directory, and all
statements below only apply it with an absolute working directory. -/
def pathResolve (wd what : String) : String :=
  let p :=
    if isAbsS what then what
    else if wd = "" then what
    else wd ++ "/" ++ what
  let abs := isAbsS what || (decide (wd ≠ "") && isAbsS wd)
  let p := if abs then p else "/" ++ p
  String.mk (sl :: List.intercalate [sl] (normStack false (splitSlash p.data)))

/-- Models path.posix.dirname from Node: scanning from the end, trailing
slashes are skipped, then the final segment, and the path is cut at the
slash found there; the slash at index zero is never a cut point. -/
def pathDirname (p : String) : String :=
  match p.data with
  | [] => "."
  | c0 :: _ =>
    let hasRoot := c0 = sl
    let r := (p.data.reverse.dropWhile (fun c => c = sl)).dropWhile (fun c => c ≠ sl)
    match r with
    | [] => if hasRoot then "/" else "."
    | _ :: _ =>
      if r.length - 1 = 0 then (if hasRoot then "/" else ".")
      else if hasRoot ∧ r.length - 1 = 1 then "//"
      else String.mk (p.data.take (r.length - 1))

/-! ## Data model -/

/-- A fetched file, as produced by the resolver: canonical locator,
source text and provenance tag.  This is the ImportFile record of the
source. -/
structure ImportFile where
  url : String
  source : String
  provider : String
deriving DecidableEq, Repr

/-- The findImports function of the source: runs the regex scan over the
source text of a file and returns the captured literals in source
order. -/
def findImports (data : ImportFile) : List String :=
  (scanImports data.source.data.length data.source.data).map (fun l => String.mk l)

/-! ## JavaScript String.replace with a string pattern

canonizeFile calls file.source.replace(i.uri, i.url).  With a string
search pattern JavaScript replaces only the first occurrence, and the
replacement string is subject to GetSubstitution: the two-character
sequences dollar-dollar, dollar-ampersand, dollar-backtick and
dollar-quote are special, every other character is copied verbatim. -/

/-- Index of the first occurrence of `pat` in `hay`, if any; the empty
pattern matches at index zero, as in JavaScript indexOf. -/
def firstIdx (pat : List Char) : List Char → Option Nat
  | [] => if List.isPrefixOf pat [] then some 0 else none
  | c :: t =>
    if List.isPrefixOf pat (c :: t) then some 0
    else (firstIdx pat t).map (fun n => n + 1)

/-- The GetSubstitution processing of a JavaScript replacement string:
`matched` is the matched substring, `pre` the portion before the match
and `post` the portion after it. -/
def getSubst (matched pre post : List Char) : List Char → List Char
  | [] => []
  | c :: rest =>
    if c = dollarC then
      match rest with
      | [] => [dollarC]
      | d :: rest2 =>
        if d = dollarC then dollarC :: getSubst matched pre post rest2
        else if d = '&' then matched ++ getSubst matched pre post rest2
        else if d = backqC then pre ++ getSubst matched pre post rest2
        else if d = sq then post ++ getSubst matched pre post rest2
        else c :: d :: getSubst matched pre post rest2
    else c :: getSubst matched pre post rest

/-- JavaScript String.replace with string pattern and string
replacement: first occurrence only, with GetSubstitution applied to the
replacement. -/
def jsReplace (s pat rep : String) : String :=
  match firstIdx pat.data s.data with
  | none => s
  | some i =>
    let pre := s.data.take i
    let post := s.data.drop (i + pat.data.length)
    String.mk (pre ++ getSubst pat.data pre post rep.data ++ post)

/-- Whether `pat` occurs as a substring of `s`. -/
def occursSub (pat s : String) : Bool := (firstIdx pat.data s.data).isSome

/-- Whether a replacement string contains no dollar character, so that
GetSubstitution copies it verbatim. -/
def noDollar (s : String) : Bool := s.data.all (fun c => c ≠ dollarC)

/-! ## The resolver capability -/

/-- The two operations of the external ResolverEngine used by the
source: resolve computes the canonical url of a reference from a search
directory, require fetches the file.  Failures (NotFound, FetchError)
are Except errors. -/
structure ResolverEngine (ε : Type) where
  resolve : String → String → Except ε String
  require : String → String → Except ε ImportFile

/-- Outcome of a fuelled traversal: a value, a propagated resolver
error, or fuel exhaustion (which never occurs with enough fuel; see the
termination theorems). -/
inductive RunOut (ε α : Type) where
  | ok (a : α)
  | err (e : ε)
  | fuelOut
deriving DecidableEq, Repr

/-! ## The flattening gatherer (gatherSources) -/

/-- A queue entry of gatherSources: { cwd, file, relativeTo }. -/
structure QItem where
  cwd : String
  file : String
  relativeTo : String
deriving DecidableEq, Repr

/-- A record of one resolver.require call made by gatherSources, with
its outcome. -/
structure ReqEntry (ε : Type) where
  file : String
  cwd : String
  outcome : Except ε ImportFile

/-- The state of the gatherSources loop.  Beyond the queue, the visited
set and the result of the source, the state carries two traces used
only in statements: every require call with its outcome, and the
visited-set key of every item ever pushed onto the queue. -/
structure GSState (ε : Type) where
  queue : List QItem
  visited : List String
  result : List ImportFile
  reqTrace : List (ReqEntry ε)
  pushTrace : List String

/-- Whether the first character of a string is a dot, as the JavaScript
test s[0] === "." computes it (false for the empty string). -/
def headIsDot (s : String) : Bool := s.data.head? = some '.'

/-- The importName computed by the for-in loop of gatherSources for one
found import.  The loop variable of the source is the array index, so
the dot test examines the decimal string of the index, never the
literal; this is modelled verbatim. -/
def importKey (relativePath : String) (p : Nat × String) : String :=
  if headIsDot (toString p.1) then pathJoin relativePath (toString p.1) else p.2

/-- The body of the for-in loop of gatherSources for one discovered
literal. -/
def enqueueOne (fileParentDir relativePath : String) (st : GSState ε) (p : Nat × String) :
    GSState ε :=
  if importKey relativePath p ∈ st.visited then st
  else
    { st with
      visited := importKey relativePath p :: st.visited
      queue := st.queue ++ [⟨fileParentDir, p.2, pathDirname relativePath⟩]
      pushTrace := st.pushTrace ++ [importKey relativePath p] }

/-- The for-in loop of gatherSources over the found imports. -/
def enqueueImports (fileParentDir relativePath : String)
    (imports : List (Nat × String)) (st : GSState ε) : GSState ε :=
  imports.foldl (enqueueOne fileParentDir relativePath) st

/-- One pass of the while loop of gatherSources applied to a popped
queue item, returning the updated state (the require call must have
succeeded). -/
def gsProcess (item : QItem) (resolvedFile : ImportFile) (st : GSState ε) : GSState ε :=
  let foundImports := findImports resolvedFile
  let relativePath :=
    if headIsDot item.file then pathJoin item.relativeTo item.file else item.file
  let st :=
    { st with
      result := st.result ++ [⟨relativePath, resolvedFile.source, resolvedFile.provider⟩] }
  let fileParentDir := pathDirname resolvedFile.url
  enqueueImports fileParentDir relativePath foundImports.enum st

/-- The while loop of gatherSources: pop the head of the queue, fetch
it, emit a record under the locally computed relative path, enqueue the
fresh imports.  A resolver failure aborts the whole loop with that
error. -/
def gsLoop (R : ResolverEngine ε) : Nat → GSState ε → RunOut ε (List ImportFile) × GSState ε
  | 0, st =>
    match st.queue with
    | [] => (.ok st.result, st)
    | _ :: _ => (.fuelOut, st)
  | fuel + 1, st =>
    match st.queue with
    | [] => (.ok st.result, st)
    | item :: rest =>
      match R.require item.file item.cwd with
      | .error e =>
        (.err e,
          { st with
            queue := rest
            reqTrace := st.reqTrace ++ [⟨item.file, item.cwd, .error e⟩] })
      | .ok resolvedFile =>
        gsLoop R fuel
          (gsProcess item resolvedFile
            { st with
              queue := rest
              reqTrace := st.reqTrace ++ [⟨item.file, item.cwd, .ok resolvedFile⟩] })

/-- Adds an element to a set modelled as a list, keeping one copy. -/
def addSet (x : String) (s : List String) : List String :=
  if x ∈ s then s else x :: s

/-- The initial state of gatherSources: the roots are made absolute
against the working directory, each is pushed onto the queue and added
to the visited set. -/
def gsInit (roots : List String) (workingDir : String) : GSState ε :=
  let absoluteRoots := roots.map (fun w => pathResolve workingDir w)
  { queue := absoluteRoots.map (fun a => ⟨workingDir, a, workingDir⟩)
    visited := absoluteRoots.foldl (fun v a => addSet a v) []
    result := []
    reqTrace := []
    pushTrace := absoluteRoots }

/-- gatherSources from the source: breadth-first flattening traversal
returning the fetched files under locally computed locators.  The extra
state component returned alongside carries the traces. -/
def gatherSources (roots : List String) (workingDir : String)
    (R : ResolverEngine ε) (fuel : Nat) :
    RunOut ε (List ImportFile) × GSState ε :=
  gsLoop R fuel (gsInit roots workingDir)

/-! ## The dependency tree builder (gatherDepenencyTree)

The dfs of the source is an async recursive function.  Its sequential
semantics - one chain of awaited calls, as happens with a single root -
is given first; the interleaved semantics of the Promise.all fan-out
over several roots is given afterwards as a small-step machine. -/

/-- An import edge of a tree node: the literal it was imported with and
the url the dfs returned for it. -/
structure ImportEdge where
  uri : String
  url : String
deriving DecidableEq, Repr

/-- The ImportTreeNode of the source: the fetched file fields spread
over { uri, imports }. -/
structure ImportTreeNode where
  uri : String
  url : String
  source : String
  provider : String
  imports : List ImportEdge
deriving DecidableEq, Repr

/-- A record of one resolver.require call made by the tree builder:
the reference, the search directory, the canonical url that
resolver.resolve had produced for it, and the outcome. -/
structure TReqEntry (ε : Type) where
  uri : String
  cwd : String
  url : String
  outcome : Except ε ImportFile

/-- The shared state of the tree builder: the alreadyImported set of
canonical urls, the shared result collection, and the require trace
used in statements. -/
structure TState (ε : Type) where
  visited : List String
  result : List ImportTreeNode
  reqTrace : List (TReqEntry ε)

/-- Outcome of one dfs call: the url returned to the caller, a
propagated resolver error, or fuel exhaustion. -/
inductive DfsOut (ε : Type) where
  | ok (url : String)
  | err (e : ε)
  | fuelOut
deriving DecidableEq, Repr

/-- The loop of dfs over the found import literals of a node: each
literal is resolved by a recursive call (passed in as `dfsF`), in source
order, and an edge is recorded for it. -/
def dfsList (dfsF : String → String → TState ε → DfsOut ε × TState ε) :
    List String → String → TState ε → RunOut ε (List ImportEdge) × TState ε
  | [], _, st => (.ok [], st)
  | uri :: rest, cwd, st =>
    match dfsF uri cwd st with
    | (.ok url, st') =>
      match dfsList dfsF rest cwd st' with
      | (.ok es, st'') => (.ok (⟨uri, url⟩ :: es), st'')
      | (.err e, st'') => (.err e, st'')
      | (.fuelOut, st'') => (.fuelOut, st'')
    | (.err e, st') => (.err e, st')
    | (.fuelOut, st') => (.fuelOut, st')

/-- The dfs of the source, sequentially: resolve the reference; if the
canonical url was already imported return it at once; otherwise fetch
the file, mark the url, recurse over its imports with the parent
directory of the url as new search directory, push the node, and return
the url field of the fetched file. -/
def dfs (R : ResolverEngine ε) : Nat → String → String → TState ε → DfsOut ε × TState ε
  | 0, _, _, st => (.fuelOut, st)
  | fuel + 1, uri, cwd, st =>
    match R.resolve uri cwd with
    | .error e => (.err e, st)
    | .ok url =>
      if url ∈ st.visited then (.ok url, st)
      else
        match R.require uri cwd with
        | .error e =>
          (.err e, { st with reqTrace := st.reqTrace ++ [⟨uri, cwd, url, .error e⟩] })
        | .ok f =>
          match dfsList (dfs R fuel) (findImports f) (pathDirname url)
              { st with
                visited := url :: st.visited
                reqTrace := st.reqTrace ++ [⟨uri, cwd, url, .ok f⟩] } with
          | (.ok es, st') =>
            (.ok f.url,
              { st' with result := st'.result ++ [⟨uri, f.url, f.source, f.provider, es⟩] })
          | (.err e, st') => (.err e, st')
          | (.fuelOut, st') => (.fuelOut, st')

/-- Sequential traversal of the roots, each from the working
directory. -/
def rootsLoop (R : ResolverEngine ε) (fuel : Nat) (workingDir : String) :
    List String → TState ε → RunOut ε Unit × TState ε
  | [], st => (.ok (), st)
  | r :: rest, st =>
    match dfs R fuel r workingDir st with
    | (.ok _, st') => rootsLoop R fuel workingDir rest st'
    | (.err e, st') => (.err e, st')
    | (.fuelOut, st') => (.fuelOut, st')

/-- gatherDepenencyTree from the source, with the roots traversed
sequentially (the interleaving of the Promise.all fan-out is modelled
by runConc below). -/
def gatherDepenencyTree (roots : List String) (workingDir : String)
    (R : ResolverEngine ε) (fuel : Nat) :
    RunOut ε (List ImportTreeNode) × TState ε :=
  match rootsLoop R fuel workingDir roots ⟨[], [], []⟩ with
  | (.ok _, st) => (.ok st.result, st)
  | (.err e, st) => (.err e, st)
  | (.fuelOut, st) => (.fuelOut, st)

/-! ## The canonicalizer -/

/-- The rewrite canonizeFile performs on the source text: one
String.replace per edge, in edge-list order. -/
def canonizeSource (imports : List ImportEdge) (source : String) : String :=
  imports.foldl (fun s e => jsReplace s e.uri e.url) source

/-- canonizeFile from the source. -/
def canonizeFile (n : ImportTreeNode) : ImportTreeNode :=
  { n with source := canonizeSource n.imports n.source }

/-- stripNodes from the source: keep only { url, source, provider }. -/
def stripNodes (nodes : List ImportTreeNode) : List ImportFile :=
  nodes.map (fun n => ⟨n.url, n.source, n.provider⟩)

/-- gatherSourcesAndCanonizeImports from the source: build the tree,
canonize every file, strip the tree bookkeeping. -/
def gatherSourcesAndCanonizeImports (roots : List String) (workingDir : String)
    (R : ResolverEngine ε) (fuel : Nat) : RunOut ε (List ImportFile) :=
  match gatherDepenencyTree roots workingDir R fuel with
  | (.ok nodes, _) => .ok (stripNodes (nodes.map canonizeFile))
  | (.err e, _) => .err e
  | (.fuelOut, _) => .fuelOut

/-! ## The interleaved semantics of the Promise.all fan-out

gatherDepenencyTree launches one dfs per root and awaits them with
Promise.all.  In JavaScript each await yields to the microtask queue, so
the root traversals interleave: a task runs from one resumption to its
next resolver call.  The machine below executes one task per step and
requeues it at the back, which is exactly the FIFO microtask order for a
resolver whose promises are already settled.  Each task is the frame
stack of its chain of active dfs invocations; only the top frame awaits
a resolver promise, the frames below it sit in the child loop. -/

/-- What a dfs frame is doing. -/
inductive CStage (ε : Type) where
  | resolving
  | requiring (url : String)
  | childLoop (f : ImportFile) (resolvedCwd : String) (current : String)
      (pending : List String) (edges : List ImportEdge)
deriving Repr

/-- One active dfs invocation: its reference, its search directory and
its stage. -/
structure CFrame (ε : Type) where
  uri : String
  cwd : String
  stage : CStage ε
deriving Repr

/-- The global state of the interleaved machine: the FIFO queue of
suspended tasks and the shared alreadyImported set, result collection
and require trace. -/
structure CState (ε : Type) where
  tasks : List (List (CFrame ε))
  visited : List String
  result : List ImportTreeNode
  reqTrace : List (TReqEntry ε)

/-- Delivers the url returned by a finished dfs call to the frames
below it, synchronously: the parent records the edge and either spawns
the next child (suspending at its resolve call) or pushes its node and
returns in turn.  Returns the new task stack, or none when the task has
completed. -/
def deliver (v : String) : List (CFrame ε) → CState ε → Option (List (CFrame ε)) × CState ε
  | [], st => (none, st)
  | fr :: below, st =>
    match fr.stage with
    | .childLoop f rcwd current pending edges =>
      let edges := edges ++ [⟨current, v⟩]
      match pending with
      | u :: rest =>
        (some (⟨u, rcwd, .resolving⟩ ::
              { fr with stage := .childLoop f rcwd u rest edges } :: below), st)
      | [] =>
        let node : ImportTreeNode := ⟨fr.uri, f.url, f.source, f.provider, edges⟩
        deliver f.url below { st with result := st.result ++ [node] }
    | _ => (none, st)

/-- Outcome of one machine step on one task. -/
inductive StepOut (ε : Type) where
  | ok (task : Option (List (CFrame ε))) (st : CState ε)
  | fail (e : ε) (st : CState ε)

/-- Runs one task from its resumption to its next suspension or to
completion.  A resolver error rejects the whole Promise.all. -/
def stepTask (R : ResolverEngine ε) : List (CFrame ε) → CState ε → StepOut ε
  | [], st => .ok none st
  | fr :: below, st =>
    match fr.stage with
    | .resolving =>
      match R.resolve fr.uri fr.cwd with
      | .error e => .fail e st
      | .ok url =>
        if url ∈ st.visited then
          match deliver url below st with
          | (t, st') => .ok t st'
        else .ok (some ({ fr with stage := .requiring url } :: below)) st
    | .requiring url =>
      match R.require fr.uri fr.cwd with
      | .error e =>
        .fail e { st with reqTrace := st.reqTrace ++ [⟨fr.uri, fr.cwd, url, .error e⟩] }
      | .ok f =>
        let st :=
          { st with
            visited := addSet url st.visited
            reqTrace := st.reqTrace ++ [⟨fr.uri, fr.cwd, url, .ok f⟩] }
        let foundImportURIs := findImports f
        let resolvedCwd := pathDirname url
        match foundImportURIs with
        | [] =>
          let node : ImportTreeNode := ⟨fr.uri, f.url, f.source, f.provider, []⟩
          match deliver f.url below { st with result := st.result ++ [node] } with
          | (t, st') => .ok t st'
        | u :: rest =>
          .ok (some (⟨u, resolvedCwd, .resolving⟩ ::
                { fr with stage := .childLoop f resolvedCwd u rest [] } :: below)) st
    | .childLoop .. => .ok none st

/-- The machine loop: take the front task, run it one step, requeue it
at the back if it is still suspended. -/
def runConc (R : ResolverEngine ε) : Nat → CState ε → RunOut ε (List ImportTreeNode) × CState ε
  | 0, st => (.fuelOut, st)
  | fuel + 1, st =>
    match st.tasks with
    | [] => (.ok st.result, st)
    | t :: rest =>
      match stepTask R t { st with tasks := rest } with
      | .fail e st' => (.err e, st')
      | .ok none st' => runConc R fuel st'
      | .ok (some t') st' => runConc R fuel { st' with tasks := st'.tasks ++ [t'] }

/-- gatherDepenencyTree under the interleaved semantics: every root
starts as a task suspended at its first resolve call, in root order. -/
def gatherDepenencyTreeConc (roots : List String) (workingDir : String)
    (R : ResolverEngine ε) (fuel : Nat) :
    RunOut ε (List ImportTreeNode) × CState ε :=
  runConc R fuel ⟨roots.map (fun r => [⟨r, workingDir, .resolving⟩]), [], [], []⟩

/-! ## Specification-side definitions

These definitions follow the words of spec sentences (or of corrected
claims) rather than the source; each is compared with the corresponding
source-side definition in a theorem. -/

/-- Specification-side replacement: substitute the replacement for the
first occurrence of the pattern, splicing the text around it, and leave
the text unchanged when the pattern does not occur.  canonizeFile is
proved to implement this per edge whenever the replacement contains no
dollar character. -/
def specReplaceFirst (s pat rep : String) : String :=
  match firstIdx pat.data s.data with
  | none => s
  | some i => String.mk (s.data.take i ++ rep.data ++ s.data.drop (i + pat.data.length))

/-- The error of the first failed require call in a gatherSources
trace, if any. -/
def firstFailFlat : List (ReqEntry ε) → Option ε
  | [] => none
  | en :: rest =>
    match en.outcome with
    | .error e => some e
    | .ok _ => firstFailFlat rest

/-- The error of the first failed require call in a tree-builder trace,
if any. -/
def firstFailTree : List (TReqEntry ε) → Option ε
  | [] => none
  | en :: rest =>
    match en.outcome with
    | .error e => some e
    | .ok _ => firstFailTree rest

/-! ## Concrete resolvers used in the concrete statements -/

/-- Resolver for the relative-path scenarios (claims about the
flattening gatherer): a root a/b.sol importing ./c.sol and pkg/d.sol
under working directory /w. -/
def resolverRel : ResolverEngine String where
  resolve := fun u _ => .ok u
  require := fun f _ =>
    if f = "/w/a/b.sol" then
      .ok ⟨"/w/a/b.sol", "import \"./c.sol\"; import \"pkg/d.sol\";", "fs"⟩
    else if f = "./c.sol" then .ok ⟨"/w/a/c.sol", "", "fs"⟩
    else if f = "pkg/d.sol" then .ok ⟨"/w/pkg/d.sol", "", "fs"⟩
    else .error "NotFound"

/-- Resolver where two distinct import literals denote the same file,
whose locally joined locators coincide. -/
def resolverDup : ResolverEngine String where
  resolve := fun u _ => .ok u
  require := fun f _ =>
    if f = "/r.sol" then
      .ok ⟨"/r.sol", "import \"./c.sol\"; import \".//c.sol\";", "fs"⟩
    else if f = "./c.sol" then .ok ⟨"/c.sol", "", "fs"⟩
    else if f = ".//c.sol" then .ok ⟨"/c.sol", "", "fs"⟩
    else .error "NotFound"

/-- Resolver with a two-file import cycle A-B. -/
def resolverCyc : ResolverEngine String where
  resolve := fun u _ =>
    if u = "A" then .ok "A" else if u = "B" then .ok "B" else .error "NotFound"
  require := fun u _ =>
    if u = "A" then .ok ⟨"A", "import \"B\";", "p"⟩
    else if u = "B" then .ok ⟨"B", "import \"A\";", "p"⟩
    else .error "NotFound"

/-- Resolver with two roots that both import a shared file f. -/
def resolverShared : ResolverEngine String where
  resolve := fun u _ => .ok u
  require := fun u _ =>
    if u = "r1" then .ok ⟨"r1", "import \"f\";", "p"⟩
    else if u = "r2" then .ok ⟨"r2", "import \"f\";", "p"⟩
    else if u = "f" then .ok ⟨"f", "", "p"⟩
    else .error "NotFound"

/-- Resolver for the canonicalization scenario: the root imports the
literal a once, and its text mentions the same literal a second time
outside the import statement. -/
def resolverCanon : ResolverEngine String where
  resolve := fun u _ => .ok u
  require := fun u _ =>
    if u = "root" then .ok ⟨"/R", "import \"a\"; x \"a\" x", "p"⟩
    else if u = "a" then .ok ⟨"/XYZ", "", "p"⟩
    else .error "NotFound"

/-- Resolver whose root imports a reference that cannot be located. -/
def resolverFail : ResolverEngine String where
  resolve := fun u _ => .ok u
  require := fun u _ =>
    if u = "/r.sol" then .ok ⟨"/r.sol", "import \"missing\";", "p"⟩
    else .error "NotFound"

/-- Resolver all of whose files are import-free while the canonical url
from resolve never agrees with the url field from require. -/
def resolverPlain : ResolverEngine String where
  resolve := fun u _ => .ok u
  require := fun _ _ => .ok ⟨"u0", "", "p0"⟩

/-! ## Lemmas about the replacement operation -/

/-- GetSubstitution is the identity on replacement strings without a
dollar character. -/
theorem getSubst_of_noDollar (matched pre post : List Char) :
    ∀ l : List Char, (∀ c ∈ l, c ≠ dollarC) → getSubst matched pre post l = l := by
  intro l
  induction l with
  | nil => intro _; rfl
  | cons c rest ih =>
    intro h
    have hc : c ≠ dollarC := h c (List.mem_cons_self c rest)
    unfold getSubst
    simp only [if_neg hc]
    rw [ih (fun d hd => h d (List.mem_cons_of_mem c hd))]

/-- With a dollar-free replacement, the JavaScript replace is exactly
the first-occurrence splice of the specification side. -/
theorem jsReplace_eq_specReplaceFirst (s pat rep : String) (h : noDollar rep = true) :
    jsReplace s pat rep = specReplaceFirst s pat rep := by
  unfold jsReplace specReplaceFirst
  cases hidx : firstIdx pat.data s.data with
  | none => rfl
  | some i =>
    have hrep : ∀ c ∈ rep.data, c ≠ dollarC := by
      intro c hc
      have := (List.all_eq_true.mp h) c hc
      simpa using this
    show String.mk (s.data.take i
          ++ getSubst pat.data (s.data.take i) (s.data.drop (i + pat.data.length)) rep.data
          ++ s.data.drop (i + pat.data.length))
        = String.mk (s.data.take i ++ rep.data ++ s.data.drop (i + pat.data.length))
    rw [getSubst_of_noDollar _ _ _ rep.data hrep]

/-- A replace whose pattern does not occur leaves the text unchanged. -/
theorem jsReplace_of_not_occurs (s pat rep : String) (h : occursSub pat s = false) :
    jsReplace s pat rep = s := by
  unfold occursSub at h
  unfold jsReplace
  cases hidx : firstIdx pat.data s.data with
  | none => rfl
  | some i => rw [hidx] at h; simp at h

/-- A canonize pass over a text in which no edge literal occurs leaves
the text unchanged. -/
theorem canonizeSource_of_not_occurs (edges : List ImportEdge) :
    ∀ t : String, (∀ e ∈ edges, occursSub e.uri t = false) →
      canonizeSource edges t = t := by
  induction edges with
  | nil => intro t _; rfl
  | cons e rest ih =>
    intro t h
    unfold canonizeSource
    simp only [List.foldl_cons]
    rw [jsReplace_of_not_occurs t e.uri e.url (h e (List.mem_cons_self e rest))]
    exact ih t (fun d hd => h d (List.mem_cons_of_mem e hd))

/-- canonizeSource is the same fold with the specification-side
replacement when no replacement contains a dollar character. -/
theorem canonizeSource_eq_spec (edges : List ImportEdge)
    (h : ∀ e ∈ edges, noDollar e.url = true) :
    ∀ src : String,
      canonizeSource edges src
        = edges.foldl (fun t e => specReplaceFirst t e.uri e.url) src := by
  induction edges with
  | nil => intro src; rfl
  | cons e rest ih =>
    intro src
    unfold canonizeSource
    simp only [List.foldl_cons]
    rw [jsReplace_eq_specReplaceFirst src e.uri e.url (h e (List.mem_cons_self e rest))]
    exact ih (fun d hd => h d (List.mem_cons_of_mem e hd)) _

/-! ## Claim C9 -/

/-- C9: findImports returns, for each of the supported import shapes in
both quote styles, exactly the quoted path substring, unmodified and in
source order; a text without import statements yields no literals; two
identical import statements yield two entries. -/
theorem findImports_extracts_quoted_paths :
    findImports ⟨"u",
        "import \"d1.sol\";\nimport \"d2.sol\" as D;\nimport x from \"d3.sol\";\nimport 'd4.sol';\nimport 'd5.sol' as E;\nimport y from 'd6.sol';",
        "p"⟩
      = ["d1.sol", "d2.sol", "d3.sol", "d4.sol", "d5.sol", "d6.sol"]
    ∧ findImports ⟨"u", "pragma solidity 0.5.0; contract C is D2 and nothing else", "p"⟩ = []
    ∧ findImports ⟨"u", "import \"dup.sol\";\nimport \"dup.sol\";", "p"⟩
        = ["dup.sol", "dup.sol"] := by
  exact ⟨by decide, by decide, by decide⟩

/-! ## Claim C2 -/

/-- C2 counterexample: canonizeFile replaces only the first occurrence
of an edge literal, not every occurrence.  The root file imports the
literal a once and mentions it a second time; after the full
gatherSourcesAndCanonizeImports pipeline the second occurrence of the
literal is still present in the emitted text. -/
theorem canonize_misses_second_occurrence :
    gatherSourcesAndCanonizeImports ["root"] "/" resolverCanon 10
      = .ok [⟨"/XYZ", "", "p"⟩, ⟨"/R", "import \"/XYZ\"; x \"a\" x", "p"⟩]
      ∧ occursSub "a" "import \"/XYZ\"; x \"a\" x" = true := by
  exact ⟨by decide, by decide⟩

/-- C2 (corrected): for every TreeNode, canonizeFile rewrites, for each
edge in the node's own edge-list order, the first occurrence of the
edge's reference literal in the current text to the edge's locator
(whenever the locators are free of the dollar character that the
JavaScript replacement string treats specially), and the stripped
output record keeps only the locator, text and provenance fields. -/
theorem canonizeFile_first_occurrence_rewrite (n : ImportTreeNode)
    (h : ∀ e ∈ n.imports, noDollar e.url = true) :
    (canonizeFile n).source
        = n.imports.foldl (fun t e => specReplaceFirst t e.uri e.url) n.source
      ∧ stripNodes [canonizeFile n]
        = [⟨n.url, n.imports.foldl (fun t e => specReplaceFirst t e.uri e.url) n.source,
            n.provider⟩] := by
  have hs : (canonizeFile n).source
      = n.imports.foldl (fun t e => specReplaceFirst t e.uri e.url) n.source :=
    canonizeSource_eq_spec n.imports h n.source
  refine ⟨hs, ?_⟩
  unfold stripNodes canonizeFile
  simp only [List.map_cons, List.map_nil]
  rw [show (canonizeSource n.imports n.source)
      = n.imports.foldl (fun t e => specReplaceFirst t e.uri e.url) n.source from hs]

/-- Witness for the corrected C2 at a concrete node. -/
theorem canonizeFile_first_occurrence_rewrite_witness :
    (∀ e ∈ ([⟨"a", "/XYZ"⟩] : List ImportEdge), noDollar e.url = true)
      ∧ (canonizeFile ⟨"r", "/R", "import \"a\"; x \"a\" x", "p", [⟨"a", "/XYZ"⟩]⟩).source
          = ([⟨"a", "/XYZ"⟩] : List ImportEdge).foldl
              (fun t e => specReplaceFirst t e.uri e.url) "import \"a\"; x \"a\" x" :=
  ⟨by decide,
   (canonizeFile_first_occurrence_rewrite
      ⟨"r", "/R", "import \"a\"; x \"a\" x", "p", [⟨"a", "/XYZ"⟩]⟩ (by decide)).1⟩

/-! ## Claim C3 -/

/-- C3 counterexample: canonicalization is not idempotent per file.
With a single edge whose locator reintroduces the literal, a second
canonize pass over the already-rewritten text changes it again. -/
theorem canonize_second_pass_changes_text :
    canonizeSource [⟨"a", "xay"⟩] "import \"a\";" = "import \"xay\";"
      ∧ canonizeSource [⟨"a", "xay"⟩] (canonizeSource [⟨"a", "xay"⟩] "import \"a\";")
          = "import \"xxayy\";"
      ∧ canonizeSource [⟨"a", "xay"⟩] (canonizeSource [⟨"a", "xay"⟩] "import \"a\";")
          ≠ canonizeSource [⟨"a", "xay"⟩] "import \"a\";" := by
  exact ⟨by decide, by decide, by decide⟩

/-- C3 (corrected): the canonize rewrite is idempotent per file
provided no edge literal still occurs in the once-rewritten text (as in
the common case where each literal occurs exactly once and no locator
reintroduces a literal); in general a locator that contains an edge
literal as a substring makes a second pass rewrite again. -/
theorem canonizeSource_idempotent_of_no_residual (edges : List ImportEdge) (src : String)
    (h : ∀ e ∈ edges, occursSub e.uri (canonizeSource edges src) = false) :
    canonizeSource edges (canonizeSource edges src) = canonizeSource edges src :=
  canonizeSource_of_not_occurs edges (canonizeSource edges src) h

/-- Witness for the corrected C3 at a concrete file. -/
theorem canonizeSource_idempotent_witness :
    (∀ e ∈ ([⟨"a", "/XY"⟩] : List ImportEdge),
        occursSub e.uri (canonizeSource [⟨"a", "/XY"⟩] "import \"a\";") = false)
      ∧ canonizeSource [⟨"a", "/XY"⟩] (canonizeSource [⟨"a", "/XY"⟩] "import \"a\";")
          = canonizeSource [⟨"a", "/XY"⟩] "import \"a\";" :=
  ⟨by decide, canonizeSource_idempotent_of_no_residual [⟨"a", "/XY"⟩] "import \"a\";" (by decide)⟩

/-! ## Claim C1 -/

/-- C1: the code contradicts the documented behaviour.  The for-in loop
variable over the found imports is the array index string, whose first
character is a decimal digit and never a dot, so the visited-set key of
a discovered import is always the raw literal.  In the run below the
file at relative locator /w/a/b.sol imports ./c.sol; the claim requires
the visited name join("/w/a/b.sol", "./c.sol") = "/w/a/b.sol/c.sol",
but the run marks the raw literal "./c.sol" visited instead, and the
joined name is never marked. -/
theorem gatherSources_visited_key_is_raw_literal :
    (gatherSources ["a/b.sol"] "/w" resolverRel 10).2.visited
        = ["pkg/d.sol", "./c.sol", "/w/a/b.sol"]
      ∧ "./c.sol" ∈ (gatherSources ["a/b.sol"] "/w" resolverRel 10).2.pushTrace
      ∧ pathJoin "/w/a/b.sol" "./c.sol" = "/w/a/b.sol/c.sol"
      ∧ "/w/a/b.sol/c.sol" ∉ (gatherSources ["a/b.sol"] "/w" resolverRel 10).2.visited := by
  exact ⟨by decide, by decide, by decide, by decide⟩

/-! ## Claim C6 -/

/-- C6 counterexample: the roots of gatherSources are made absolute
with path.resolve against the working directory before traversal, so
with root a/b.sol and working directory /w the record emitted for its
dot-relative child ./c.sol has locator /w/a/c.sol, and no record with
the locator a/c.sol of the claim exists. -/
theorem gatherSources_relative_root_locator_absolute :
    ((gatherSources ["a/b.sol"] "/w" resolverRel 10).1
        = .ok [⟨"/w/a/b.sol", "import \"./c.sol\"; import \"pkg/d.sol\";", "fs"⟩,
               ⟨"/w/a/c.sol", "", "fs"⟩,
               ⟨"pkg/d.sol", "", "fs"⟩])
      ∧ (∀ f ∈ [⟨"/w/a/b.sol", "import \"./c.sol\"; import \"pkg/d.sol\";", "fs"⟩,
               ⟨"/w/a/c.sol", "", "fs"⟩,
               (⟨"pkg/d.sol", "", "fs"⟩ : ImportFile)], f.url ≠ "a/c.sol") := by
  exact ⟨by decide, by decide⟩

/-- C6 (corrected): with root a/b.sol under working directory /w, the
record emitted for the import ./c.sol carries the literal joined to the
directory of the absolutized root locator,
join(dirname(resolve(workingDir, root)), "./c.sol") = /w/a/c.sol, while
the dot-free import pkg/d.sol is emitted with its literal unchanged. -/
theorem gatherSources_relative_import_joined :
    ((gatherSources ["a/b.sol"] "/w" resolverRel 10).1
        = .ok [⟨"/w/a/b.sol", "import \"./c.sol\"; import \"pkg/d.sol\";", "fs"⟩,
               ⟨pathJoin (pathDirname (pathResolve "/w" "a/b.sol")) "./c.sol", "", "fs"⟩,
               ⟨"pkg/d.sol", "", "fs"⟩])
      ∧ pathJoin (pathDirname (pathResolve "/w" "a/b.sol")) "./c.sol" = "/w/a/c.sol" := by
  exact ⟨by decide, by decide⟩

/-! ## Claim C7 -/

/-- C7 counterexample: the dedup key of the flattening gatherer is the
raw import literal, not the locally joined locator, so two distinct
literals that join to the same locator produce two output entries with
that locator. -/
theorem gatherSources_duplicate_locator :
    ((gatherSources ["/r.sol"] "/" resolverDup 10).1
        = .ok [⟨"/r.sol", "import \"./c.sol\"; import \".//c.sol\";", "fs"⟩,
               ⟨"/c.sol", "", "fs"⟩,
               ⟨"/c.sol", "", "fs"⟩])
      ∧ pathJoin "/" "./c.sol" = pathJoin "/" ".//c.sol" := by
  exact ⟨by decide, by decide⟩


/-! ## Invariants of the flattening gatherer loop -/

/-- A fold preserves any property its step preserves. -/
theorem foldl_preserve {α β : Type} (P : α → Prop) (f : α → β → α)
    (h : ∀ st x, P st → P (f st x)) : ∀ (l : List β) (st : α), P st → P (l.foldl f st) := by
  intro l
  induction l with
  | nil => intro st hp; exact hp
  | cons x xs ih => intro st hp; exact ih (f st x) (h st x hp)

/-- The enqueue step never touches the require trace. -/
theorem enqueueOne_reqTrace (d p : String) (st : GSState ε) (x : Nat × String) :
    (enqueueOne d p st x).reqTrace = st.reqTrace := by
  unfold enqueueOne
  split
  · rfl
  · rfl

/-- The enqueue loop never touches the require trace. -/
theorem enqueueImports_reqTrace (d p : String) (l : List (Nat × String)) (st : GSState ε) :
    (enqueueImports d p l st).reqTrace = st.reqTrace :=
  foldl_preserve (fun s => s.reqTrace = st.reqTrace) (enqueueOne d p)
    (fun s x hs => (enqueueOne_reqTrace d p s x).trans hs) l st rfl

/-- The loop invariant of gatherSources: the push trace has no
duplicate visited names, every pushed name is in the visited set, and
the emitted records and pending queue items add up to the pushes. -/
def GInv (st : GSState ε) : Prop :=
  st.pushTrace.Nodup ∧ (∀ f ∈ st.pushTrace, f ∈ st.visited)
    ∧ st.result.length + st.queue.length = st.pushTrace.length

/-- The enqueue step preserves the loop invariant. -/
theorem enqueueOne_inv (d p : String) (st : GSState ε) (x : Nat × String)
    (h : GInv st) : GInv (enqueueOne d p st x) := by
  obtain ⟨hnd, hsub, hlen⟩ := h
  unfold enqueueOne
  split
  · exact ⟨hnd, hsub, hlen⟩
  · next hfresh =>
    refine ⟨?_, ?_, ?_⟩
    · rw [List.nodup_append]
      refine ⟨hnd, List.nodup_singleton _, ?_⟩
      intro a ha hb
      have hmem : a ∈ st.visited := hsub a ha
      have hb' : a = importKey p x := List.mem_singleton.mp hb
      exact hfresh (hb' ▸ hmem)
    · intro f hf
      rcases List.mem_append.mp hf with hl | hr
      · exact List.mem_cons_of_mem _ (hsub f hl)
      · exact (List.mem_singleton.mp hr) ▸ List.mem_cons_self _ _
    · simp only [List.length_append, List.length_cons, List.length_nil]
      omega

/-- The enqueue loop preserves the loop invariant. -/
theorem enqueueImports_inv (d p : String) (l : List (Nat × String)) (st : GSState ε)
    (h : GInv st) : GInv (enqueueImports d p l st) :=
  foldl_preserve GInv (enqueueOne d p) (fun s x hs => enqueueOne_inv d p s x hs) l st h

/-- Processing a popped item preserves the loop invariant: the pop and
the emitted record trade one queue slot for one result entry, and the
enqueue loop pushes and records names together. -/
theorem gsProcess_inv (item : QItem) (f : ImportFile) (rest : List QItem)
    (tr : List (ReqEntry ε)) (st : GSState ε) (h : GInv st) (hq : st.queue = item :: rest) :
    GInv (gsProcess item f { st with queue := rest, reqTrace := tr }) := by
  obtain ⟨hnd, hsub, hlen⟩ := h
  unfold gsProcess
  apply enqueueImports_inv
  refine ⟨hnd, hsub, ?_⟩
  simp only [List.length_append, List.length_cons, List.length_nil]
  rw [hq] at hlen
  simp only [List.length_cons] at hlen
  omega

/-- A successful gatherSources loop run ends with an empty queue, an
intact invariant, and the final result as its value. -/
theorem gsLoop_ok_inv (R : ResolverEngine ε) :
    ∀ (fuel : Nat) (st : GSState ε), GInv st →
      ∀ res stF, gsLoop R fuel st = (.ok res, stF) →
        res = stF.result ∧ stF.queue = [] ∧ GInv stF := by
  intro fuel
  induction fuel with
  | zero =>
    intro st h res stF hrun
    unfold gsLoop at hrun
    split at hrun
    · cases hrun
      next hq => exact ⟨rfl, hq, h⟩
    · cases hrun
  | succ fuel ih =>
    intro st h res stF hrun
    unfold gsLoop at hrun
    split at hrun
    · cases hrun
      next hq => exact ⟨rfl, hq, h⟩
    · next item rest hq =>
      split at hrun
      · cases hrun
      · next f hreq =>
        exact ih _ (gsProcess_inv item f rest _ st h hq) res stF hrun

/-- Adding a name to a set makes it a member. -/
theorem mem_addSet_self (a : String) (s : List String) : a ∈ addSet a s := by
  unfold addSet
  split
  · next h => exact h
  · exact List.mem_cons_self _ _

/-- Adding a name to a set keeps the other members. -/
theorem mem_addSet_of_mem (a f : String) (s : List String) (h : f ∈ s) : f ∈ addSet a s := by
  unfold addSet
  split
  · exact h
  · exact List.mem_cons_of_mem _ h

/-- Every name in the initial visited set fold is reachable: a string
that is a root, or already accumulated, is in the fold of addSet. -/
theorem mem_foldl_addSet :
    ∀ (l acc : List String) (f : String), f ∈ l ∨ f ∈ acc →
      f ∈ l.foldl (fun v a => addSet a v) acc := by
  intro l
  induction l with
  | nil =>
    intro acc f hm
    rcases hm with hc | hc
    · cases hc
    · exact hc
  | cons a as ih =>
    intro acc f hm
    apply ih
    rcases hm with hc | hc
    · rcases List.mem_cons.mp hc with he | hm2
      · subst he
        right
        exact mem_addSet_self f acc
      · left; exact hm2
    · right
      exact mem_addSet_of_mem a f acc hc

/-- C7 (corrected): over any completed gatherSources run with roots
that are pairwise distinct after absolutization, the visited names
pushed onto the queue are pairwise distinct and the output has exactly
one entry per pushed name - but the name is the raw import literal (or
absolutized root), not the locally joined locator, and distinct
literals may join to the same locator (see the counterexample). -/
theorem gatherSources_one_entry_per_name (roots : List String) (wd : String)
    (R : ResolverEngine ε) (fuel : Nat)
    (hnd : (roots.map (fun w => pathResolve wd w)).Nodup)
    (res : List ImportFile) (h : (gatherSources roots wd R fuel).1 = .ok res) :
    (gatherSources roots wd R fuel).2.pushTrace.Nodup
      ∧ res.length = (gatherSources roots wd R fuel).2.pushTrace.length
      ∧ ∀ f ∈ (gatherSources roots wd R fuel).2.pushTrace,
          f ∈ (gatherSources roots wd R fuel).2.visited := by
  have hinv : GInv (ε := ε) (gsInit roots wd) := by
    refine ⟨hnd, ?_, ?_⟩
    · intro f hf
      exact mem_foldl_addSet _ [] f (Or.inl hf)
    · simp [gsInit]
  have hrun : gsLoop R fuel (gsInit roots wd)
      = (RunOut.ok res, (gatherSources roots wd R fuel).2) := by
    rw [← h]
    rfl
  obtain ⟨hres, hqe, hnd', hsub, hlen⟩ :=
    (fun x => ⟨x.1, x.2.1, x.2.2.1, x.2.2.2.1, x.2.2.2.2⟩ :
      (res = (gatherSources roots wd R fuel).2.result
          ∧ (gatherSources roots wd R fuel).2.queue = []
          ∧ GInv (gatherSources roots wd R fuel).2) →
        res = (gatherSources roots wd R fuel).2.result
          ∧ (gatherSources roots wd R fuel).2.queue = []
          ∧ (gatherSources roots wd R fuel).2.pushTrace.Nodup
          ∧ (∀ f ∈ (gatherSources roots wd R fuel).2.pushTrace,
              f ∈ (gatherSources roots wd R fuel).2.visited)
          ∧ (gatherSources roots wd R fuel).2.result.length
              + (gatherSources roots wd R fuel).2.queue.length
              = (gatherSources roots wd R fuel).2.pushTrace.length)
    (gsLoop_ok_inv R fuel (gsInit roots wd) hinv res _ hrun)
  refine ⟨hnd', ?_, hsub⟩
  rw [hres]
  rw [hqe] at hlen
  simp only [List.length_nil] at hlen
  omega


/-- Witness for the corrected C7 at a concrete run. -/
theorem gatherSources_one_entry_per_name_witness :
    ((["a/b.sol"].map (fun w => pathResolve "/w" w)).Nodup
        ∧ (gatherSources ["a/b.sol"] "/w" resolverRel 10).1
            = .ok [⟨"/w/a/b.sol", "import \"./c.sol\"; import \"pkg/d.sol\";", "fs"⟩,
                   ⟨"/w/a/c.sol", "", "fs"⟩, ⟨"pkg/d.sol", "", "fs"⟩])
      ∧ (gatherSources ["a/b.sol"] "/w" resolverRel 10).2.pushTrace.Nodup :=
  ⟨⟨by decide, by decide⟩,
   (gatherSources_one_entry_per_name ["a/b.sol"] "/w" resolverRel 10 (by decide)
      [⟨"/w/a/b.sol", "import \"./c.sol\"; import \"pkg/d.sol\";", "fs"⟩,
       ⟨"/w/a/c.sol", "", "fs"⟩, ⟨"pkg/d.sol", "", "fs"⟩]
      (by decide)).1⟩

/-! ## Failure propagation -/

/-- The trace condition after a traversal step: when the step failed
with an error, the require trace is clean or its first failure is that
very error; when it did not fail, the trace is clean. -/
def failPost (e? : Option ε) (tr : Option ε) : Prop :=
  match e? with
  | some e => tr = none ∨ tr = some e
  | none => tr = none

/-- The error carried by a dfs outcome, if any. -/
def dfsOutErr : DfsOut ε → Option ε
  | .err e => some e
  | _ => none

/-- The error carried by a run outcome, if any. -/
def runOutErr {α : Type} : RunOut ε α → Option ε
  | .err e => some e
  | _ => none

/-- A clean prefix does not contribute a first failure. -/
theorem firstFailFlat_append (l1 l2 : List (ReqEntry ε)) (h : firstFailFlat l1 = none) :
    firstFailFlat (l1 ++ l2) = firstFailFlat l2 := by
  induction l1 with
  | nil => rfl
  | cons en rest ih =>
    cases en with
    | mk f c out =>
      cases out with
      | error e => exact absurd h (by simp [firstFailFlat])
      | ok v =>
        simp only [List.cons_append]
        show firstFailFlat (rest ++ l2) = firstFailFlat l2
        exact ih (by simpa [firstFailFlat] using h)

/-- A clean prefix does not contribute a first failure (tree trace). -/
theorem firstFailTree_append (l1 l2 : List (TReqEntry ε)) (h : firstFailTree l1 = none) :
    firstFailTree (l1 ++ l2) = firstFailTree l2 := by
  induction l1 with
  | nil => rfl
  | cons en rest ih =>
    cases en with
    | mk u c w out =>
      cases out with
      | error e => exact absurd h (by simp [firstFailTree])
      | ok v =>
        simp only [List.cons_append]
        show firstFailTree (rest ++ l2) = firstFailTree l2
        exact ih (by simpa [firstFailTree] using h)

/-- The processing of a popped item leaves the require trace alone. -/
theorem gsProcess_reqTrace (item : QItem) (f : ImportFile) (st : GSState ε) :
    (gsProcess item f st).reqTrace = st.reqTrace := by
  unfold gsProcess
  simp only [enqueueImports_reqTrace]

/-- In the gatherSources loop, a require failure somewhere in the run
is the first failure of the final trace and is the returned error;
without a failure the final trace is clean. -/
theorem gsLoop_trace_post (R : ResolverEngine ε) :
    ∀ (fuel : Nat) (st : GSState ε), firstFailFlat st.reqTrace = none →
      ∀ out stF, gsLoop R fuel st = (out, stF) →
        failPost (runOutErr out) (firstFailFlat stF.reqTrace) := by
  intro fuel
  induction fuel with
  | zero =>
    intro st hc out stF hrun
    unfold gsLoop at hrun
    split at hrun
    · cases hrun; exact hc
    · cases hrun; exact hc
  | succ fuel ih =>
    intro st hc out stF hrun
    unfold gsLoop at hrun
    split at hrun
    · cases hrun; exact hc
    · next item rest hq =>
      split at hrun
      · next e hreq =>
        cases hrun
        right
        rw [firstFailFlat_append _ _ hc]
        rfl
      · next f hreq =>
        apply ih _ _ out stF hrun
        rw [gsProcess_reqTrace]
        show firstFailFlat (st.reqTrace ++ [⟨item.file, item.cwd, .ok f⟩]) = none
        rw [firstFailFlat_append _ _ hc]
        rfl

/-- In a dfs chain, a require failure somewhere in the run is the
first failure of the final trace and is the returned error; without a
failure the final trace stays clean. -/
theorem dfsList_trace_post (dfsF : String → String → TState ε → DfsOut ε × TState ε)
    (hF : ∀ (u c : String) (st : TState ε), firstFailTree st.reqTrace = none →
      ∀ out st', dfsF u c st = (out, st') →
        failPost (dfsOutErr out) (firstFailTree st'.reqTrace)) :
    ∀ (l : List String) (cwd : String) (st : TState ε),
      firstFailTree st.reqTrace = none →
      ∀ out st', dfsList dfsF l cwd st = (out, st') →
        failPost (runOutErr out) (firstFailTree st'.reqTrace) := by
  intro l
  induction l with
  | nil =>
    intro cwd st hc out st' hrun
    unfold dfsList at hrun
    cases hrun
    exact hc
  | cons uri rest ih =>
    intro cwd st hc out st' hrun
    unfold dfsList at hrun
    split at hrun
    · next url st1 hstep =>
      have h1 := hF uri cwd st hc _ _ hstep
      have hc1 : firstFailTree st1.reqTrace = none := h1
      split at hrun
      · next es st2 hrest =>
        cases hrun
        have hpost := ih cwd st1 hc1 _ _ hrest
        exact hpost
      · next e st2 hrest =>
        cases hrun
        have hpost := ih cwd st1 hc1 _ _ hrest
        exact hpost
      · next st2 hrest =>
        cases hrun
        have hpost := ih cwd st1 hc1 _ _ hrest
        exact hpost
    · next e st1 hstep =>
      cases hrun
      exact hF uri cwd st hc _ _ hstep
    · next st1 hstep =>
      cases hrun
      exact hF uri cwd st hc _ _ hstep

/-- The dfs of the tree builder satisfies the trace condition. -/
theorem dfs_trace_post (R : ResolverEngine ε) :
    ∀ (fuel : Nat) (uri cwd : String) (st : TState ε),
      firstFailTree st.reqTrace = none →
      ∀ out st', dfs R fuel uri cwd st = (out, st') →
        failPost (dfsOutErr out) (firstFailTree st'.reqTrace) := by
  intro fuel
  induction fuel with
  | zero =>
    intro uri cwd st hc out st' hrun
    unfold dfs at hrun
    cases hrun
    exact hc
  | succ fuel ih =>
    intro uri cwd st hc out st' hrun
    unfold dfs at hrun
    split at hrun
    · cases hrun
      exact Or.inl hc
    · next url hres =>
      split at hrun
      · cases hrun
        exact hc
      · next hnot =>
        split at hrun
        · next e hreq =>
          cases hrun
          right
          show firstFailTree (st.reqTrace ++ [⟨uri, cwd, url, .error e⟩]) = some e
          rw [firstFailTree_append _ _ hc]
          rfl
        · next f hreq =>
          have hc1 : firstFailTree
              (st.reqTrace ++ [(⟨uri, cwd, url, .ok f⟩ : TReqEntry ε)]) = none := by
            rw [firstFailTree_append _ _ hc]
            rfl
          split at hrun
          · next es st2 hrest =>
            cases hrun
            exact dfsList_trace_post (dfs R fuel) (ih) _ _ _ hc1 _ _ hrest
          · next e st2 hrest =>
            cases hrun
            exact dfsList_trace_post (dfs R fuel) (ih) _ _ _ hc1 _ _ hrest
          · next st2 hrest =>
            cases hrun
            exact dfsList_trace_post (dfs R fuel) (ih) _ _ _ hc1 _ _ hrest

/-- The sequential roots loop satisfies the trace condition. -/
theorem rootsLoop_trace_post (R : ResolverEngine ε) (fuel : Nat) (wd : String) :
    ∀ (roots : List String) (st : TState ε), firstFailTree st.reqTrace = none →
      ∀ out st', rootsLoop R fuel wd roots st = (out, st') →
        failPost (runOutErr out) (firstFailTree st'.reqTrace) := by
  intro roots
  induction roots with
  | nil =>
    intro st hc out st' hrun
    unfold rootsLoop at hrun
    cases hrun
    exact hc
  | cons r rest ih =>
    intro st hc out st' hrun
    unfold rootsLoop at hrun
    split at hrun
    · next v st1 hstep =>
      have h1 : firstFailTree st1.reqTrace = none :=
        dfs_trace_post R fuel r wd st hc _ _ hstep
      exact ih st1 h1 out st' hrun
    · next e st1 hstep =>
      cases hrun
      exact dfs_trace_post R fuel r wd st hc _ _ hstep
    · next st1 hstep =>
      cases hrun
      exact dfs_trace_post R fuel r wd st hc _ _ hstep


/-! ## Claim C8 -/

/-- C8: if the resolver's require fails for any transitively reached
reference - that is, the require trace of the run contains a failure -
then the top-level call fails with the error of the first such failure
and returns no partial result; this holds for gatherSources, for
gatherDepenencyTree, and for gatherSourcesAndCanonizeImports. -/
theorem require_failure_propagates :
    (∀ (roots : List String) (wd : String) (R : ResolverEngine ε) (fuel : Nat) (e : ε),
        firstFailFlat (gatherSources roots wd R fuel).2.reqTrace = some e →
        (gatherSources roots wd R fuel).1 = .err e)
      ∧ (∀ (roots : List String) (wd : String) (R : ResolverEngine ε) (fuel : Nat) (e : ε),
          firstFailTree (gatherDepenencyTree roots wd R fuel).2.reqTrace = some e →
          (gatherDepenencyTree roots wd R fuel).1 = .err e
            ∧ gatherSourcesAndCanonizeImports roots wd R fuel = .err e) := by
  constructor
  · intro roots wd R fuel e hf
    have hrun : gsLoop R fuel (gsInit roots wd)
        = ((gatherSources roots wd R fuel).1, (gatherSources roots wd R fuel).2) := rfl
    have hpost := gsLoop_trace_post R fuel (gsInit roots wd) rfl _ _ hrun
    cases hout : (gatherSources roots wd R fuel).1 with
    | ok a =>
      rw [hout] at hpost
      have hnone : firstFailFlat (gatherSources roots wd R fuel).2.reqTrace = none := hpost
      rw [hf] at hnone
      cases hnone
    | fuelOut =>
      rw [hout] at hpost
      have hnone : firstFailFlat (gatherSources roots wd R fuel).2.reqTrace = none := hpost
      rw [hf] at hnone
      cases hnone
    | err e2 =>
      rw [hout] at hpost
      have hdisj : firstFailFlat (gatherSources roots wd R fuel).2.reqTrace = none
          ∨ firstFailFlat (gatherSources roots wd R fuel).2.reqTrace = some e2 := hpost
      rcases hdisj with hn | hs
      · rw [hf] at hn; cases hn
      · rw [hf] at hs
        cases hs
        rfl
  · intro roots wd R fuel e hf
    cases hr : rootsLoop R fuel wd roots ⟨[], [], []⟩ with
    | mk out0 st0 =>
      have hgd : gatherDepenencyTree roots wd R fuel
          = match (out0, st0) with
            | (.ok _, st) => ((.ok st.result : RunOut ε (List ImportTreeNode)), st)
            | (.err e, st) => (.err e, st)
            | (.fuelOut, st) => (.fuelOut, st) := by
        unfold gatherDepenencyTree
        rw [hr]
      have hpost := rootsLoop_trace_post R fuel wd roots ⟨[], [], []⟩ rfl _ _ hr
      cases out0 with
      | ok u =>
        have hst : (gatherDepenencyTree roots wd R fuel).2 = st0 := by rw [hgd]
        rw [hst] at hf
        have hnone : firstFailTree st0.reqTrace = none := hpost
        rw [hf] at hnone
        cases hnone
      | fuelOut =>
        have hst : (gatherDepenencyTree roots wd R fuel).2 = st0 := by rw [hgd]
        rw [hst] at hf
        have hnone : firstFailTree st0.reqTrace = none := hpost
        rw [hf] at hnone
        cases hnone
      | err e2 =>
        have hst : (gatherDepenencyTree roots wd R fuel).2 = st0 := by rw [hgd]
        rw [hst] at hf
        have hdisj : firstFailTree st0.reqTrace = none
            ∨ firstFailTree st0.reqTrace = some e2 := hpost
        rcases hdisj with hn | hs
        · rw [hf] at hn; cases hn
        · rw [hf] at hs
          cases hs
          constructor
          · rw [hgd]
          · unfold gatherSourcesAndCanonizeImports
            rw [hgd]
  

/-- Witness for C8 on a concrete resolver whose root imports a missing
reference. -/
theorem require_failure_propagates_witness :
    (firstFailFlat (gatherSources ["r.sol"] "/" resolverFail 10).2.reqTrace
          = some "NotFound"
        ∧ (gatherSources ["r.sol"] "/" resolverFail 10).1 = .err "NotFound")
      ∧ (firstFailTree (gatherDepenencyTree ["/r.sol"] "/" resolverFail 10).2.reqTrace
          = some "NotFound"
        ∧ (gatherDepenencyTree ["/r.sol"] "/" resolverFail 10).1 = .err "NotFound"
        ∧ gatherSourcesAndCanonizeImports ["/r.sol"] "/" resolverFail 10 = .err "NotFound") :=
  ⟨⟨by decide, require_failure_propagates.1 ["r.sol"] "/" resolverFail 10 "NotFound" (by decide)⟩,
   ⟨by decide, require_failure_propagates.2 ["/r.sol"] "/" resolverFail 10 "NotFound" (by decide)⟩⟩

/-! ## Claim C4 -/

/-- The fetch-once invariant of the sequential tree builder: the
canonical urls in the require trace are pairwise distinct, and every
fetched url has been recorded in the alreadyImported set. -/
@[reducible] def TInv (st : TState ε) : Prop :=
  (st.reqTrace.map (fun en => en.url)).Nodup
    ∧ ∀ en ∈ st.reqTrace, en.url ∈ st.visited

/-- The conclusions of the fetch-once induction for a traversal step:
the trace urls stay distinct; a successful step keeps the invariant and
creates exactly one node per fetch; an exhausted step keeps the
invariant. -/
@[reducible] def fetchPost (st : TState ε) (out : DfsOut ε) (st' : TState ε) : Prop :=
  (st'.reqTrace.map (fun en => en.url)).Nodup
    ∧ (∀ v, out = .ok v → TInv st'
        ∧ st'.result.length + st.reqTrace.length = st'.reqTrace.length + st.result.length)
    ∧ (out = .fuelOut → TInv st')

/-- Like fetchPost, for the outcome type of the child loop. -/
@[reducible] def fetchPostL {α : Type} (st : TState ε) (out : RunOut ε α) (st' : TState ε) :
    Prop :=
  (st'.reqTrace.map (fun en => en.url)).Nodup
    ∧ (∀ a, out = .ok a → TInv st'
        ∧ st'.result.length + st.reqTrace.length = st'.reqTrace.length + st.result.length)
    ∧ (out = .fuelOut → TInv st')

/-- Introduction of fetchPost for an error outcome. -/
theorem fetchPost_err (st : TState ε) (e : ε) (st' : TState ε)
    (h : (st'.reqTrace.map (fun en => en.url)).Nodup) :
    fetchPost st (DfsOut.err e) st' :=
  ⟨h, fun _ hv => DfsOut.noConfusion hv, fun hfo => DfsOut.noConfusion hfo⟩

/-- Introduction of fetchPost for an exhausted outcome. -/
theorem fetchPost_fuelOut (st st' : TState ε) (h : TInv st') :
    fetchPost st DfsOut.fuelOut st' :=
  ⟨h.1, fun _ hv => DfsOut.noConfusion hv, fun _ => h⟩

/-- Introduction of fetchPost for a successful outcome. -/
theorem fetchPost_ok (st : TState ε) (v : String) (st' : TState ε) (h : TInv st')
    (hl : st'.result.length + st.reqTrace.length = st'.reqTrace.length + st.result.length) :
    fetchPost st (DfsOut.ok v) st' :=
  ⟨h.1, fun _ _ => ⟨h, hl⟩, fun hfo => DfsOut.noConfusion hfo⟩

/-- Introduction of fetchPostL for an error outcome. -/
theorem fetchPostL_err {α : Type} (st : TState ε) (e : ε) (st' : TState ε)
    (h : (st'.reqTrace.map (fun en => en.url)).Nodup) :
    fetchPostL st (RunOut.err e : RunOut ε α) st' :=
  ⟨h, fun _ hv => RunOut.noConfusion hv, fun hfo => RunOut.noConfusion hfo⟩

/-- Introduction of fetchPostL for an exhausted outcome. -/
theorem fetchPostL_fuelOut {α : Type} (st st' : TState ε) (h : TInv st') :
    fetchPostL st (RunOut.fuelOut : RunOut ε α) st' :=
  ⟨h.1, fun _ hv => RunOut.noConfusion hv, fun _ => h⟩

/-- Introduction of fetchPostL for a successful outcome. -/
theorem fetchPostL_ok {α : Type} (st : TState ε) (a : α) (st' : TState ε) (h : TInv st')
    (hl : st'.result.length + st.reqTrace.length = st'.reqTrace.length + st.result.length) :
    fetchPostL st (RunOut.ok a) st' :=
  ⟨h.1, fun _ _ => ⟨h, hl⟩, fun hfo => RunOut.noConfusion hfo⟩

/-- The child loop of dfs satisfies the fetch-once conclusions whenever
each recursive call does. -/
theorem dfsList_fetch_post (dfsF : String → String → TState ε → DfsOut ε × TState ε)
    (hF : ∀ (u c : String) (st : TState ε), TInv st →
      ∀ out st', dfsF u c st = (out, st') → fetchPost st out st') :
    ∀ (l : List String) (cwd : String) (st : TState ε), TInv st →
      ∀ out st', dfsList dfsF l cwd st = (out, st') → fetchPostL st out st' := by
  intro l
  induction l with
  | nil =>
    intro cwd st hinv out st' hrun
    unfold dfsList at hrun
    cases hrun
    exact fetchPostL_ok st _ st hinv (by omega)
  | cons uri rest ih =>
    intro cwd st hinv out st' hrun
    unfold dfsList at hrun
    split at hrun
    · next url st1 hstep =>
      have h1 := hF uri cwd st hinv _ _ hstep
      obtain ⟨hinv1, hlen1⟩ := h1.2.1 url rfl
      split at hrun
      · next es st2 hrest =>
        cases hrun
        have h2 := ih cwd st1 hinv1 _ _ hrest
        obtain ⟨hinv2, hlen2⟩ := h2.2.1 es rfl
        exact fetchPostL_ok st _ st' hinv2 (by omega)
      · next e st2 hrest =>
        cases hrun
        have h2 := ih cwd st1 hinv1 _ _ hrest
        exact fetchPostL_err st e st' h2.1
      · next st2 hrest =>
        cases hrun
        have h2 := ih cwd st1 hinv1 _ _ hrest
        exact fetchPostL_fuelOut st st' (h2.2.2 rfl)
    · next e st1 hstep =>
      cases hrun
      have h1 := hF uri cwd st hinv _ _ hstep
      exact fetchPostL_err st e st' h1.1
    · next st1 hstep =>
      cases hrun
      have h1 := hF uri cwd st hinv _ _ hstep
      exact fetchPostL_fuelOut st st' (h1.2.2 rfl)

/-- The dfs of the tree builder satisfies the fetch-once conclusions:
along one sequential chain every canonical locator is fetched at most
once, and each fetch creates exactly one node. -/
theorem dfs_fetch_post (R : ResolverEngine ε) :
    ∀ (fuel : Nat) (uri cwd : String) (st : TState ε), TInv st →
      ∀ out st', dfs R fuel uri cwd st = (out, st') → fetchPost st out st' := by
  intro fuel
  induction fuel with
  | zero =>
    intro uri cwd st hinv out st' hrun
    unfold dfs at hrun
    cases hrun
    exact fetchPost_fuelOut st st hinv
  | succ fuel ih =>
    intro uri cwd st hinv out st' hrun
    unfold dfs at hrun
    split at hrun
    · next e hres =>
      cases hrun
      exact fetchPost_err st e st hinv.1
    · next url hres =>
      split at hrun
      · next hmem =>
        cases hrun
        exact fetchPost_ok st url st hinv (by omega)
      · next hnot =>
        have hfresh : url ∉ st.reqTrace.map (fun en => en.url) := by
          intro hmem2
          rcases List.mem_map.mp hmem2 with ⟨en, hen, hurl⟩
          exact hnot (hurl ▸ hinv.2 en hen)
        split at hrun
        · next e hreq =>
          cases hrun
          apply fetchPost_err
          show ((st.reqTrace
              ++ [(⟨uri, cwd, url, Except.error e⟩ : TReqEntry ε)]).map
                (fun en => en.url)).Nodup
          rw [List.map_append]
          simp only [List.map_cons, List.map_nil]
          rw [List.nodup_append]
          exact ⟨hinv.1, List.nodup_singleton _,
            fun a ha hb => hfresh (List.mem_singleton.mp hb ▸ ha)⟩
        · next f hreq =>
          have hinv1 : TInv (ε := ε)
              ⟨url :: st.visited, st.result,
                st.reqTrace ++ [⟨uri, cwd, url, Except.ok f⟩]⟩ := by
            constructor
            · show ((st.reqTrace
                  ++ [(⟨uri, cwd, url, Except.ok f⟩ : TReqEntry ε)]).map
                    (fun en => en.url)).Nodup
              rw [List.map_append]
              simp only [List.map_cons, List.map_nil]
              rw [List.nodup_append]
              exact ⟨hinv.1, List.nodup_singleton _,
                fun a ha hb => hfresh (List.mem_singleton.mp hb ▸ ha)⟩
            · intro en hen
              rcases List.mem_append.mp hen with h1 | h2
              · exact List.mem_cons_of_mem _ (hinv.2 en h1)
              · rw [List.mem_singleton.mp h2]
                exact List.mem_cons_self _ _
          split at hrun
          · next es st2 hrest =>
            cases hrun
            have h2 := dfsList_fetch_post (dfs R fuel) ih _ _ _ hinv1 _ _ hrest
            obtain ⟨hinv2, hlen2⟩ := h2.2.1 es rfl
            apply fetchPost_ok
            · exact ⟨hinv2.1, fun en hen => hinv2.2 en hen⟩
            · simp only [List.length_append, List.length_cons, List.length_nil] at hlen2 ⊢
              omega
          · next e st2 hrest =>
            cases hrun
            have h2 := dfsList_fetch_post (dfs R fuel) ih _ _ _ hinv1 _ _ hrest
            exact fetchPost_err st e st' h2.1
          · next st2 hrest =>
            cases hrun
            have h2 := dfsList_fetch_post (dfs R fuel) ih _ _ _ hinv1 _ _ hrest
            exact fetchPost_fuelOut st st' (h2.2.2 rfl)

/-- The sequential roots loop satisfies the fetch-once conclusions. -/
theorem rootsLoop_fetch_post (R : ResolverEngine ε) (fuel : Nat) (wd : String) :
    ∀ (roots : List String) (st : TState ε), TInv st →
      ∀ out st', rootsLoop R fuel wd roots st = (out, st') → fetchPostL st out st' := by
  intro roots
  induction roots with
  | nil =>
    intro st hinv out st' hrun
    unfold rootsLoop at hrun
    cases hrun
    exact fetchPostL_ok st _ st hinv (by omega)
  | cons r rest ih =>
    intro st hinv out st' hrun
    unfold rootsLoop at hrun
    split at hrun
    · next v st1 hstep =>
      have h1 := dfs_fetch_post R fuel r wd st hinv _ _ hstep
      obtain ⟨hinv1, hlen1⟩ := h1.2.1 v rfl
      have h2 := ih st1 hinv1 _ _ hrun
      refine ⟨h2.1, fun a ha => ?_, fun hfo => h2.2.2 hfo⟩
      obtain ⟨hinv2, hlen2⟩ := h2.2.1 a ha
      exact ⟨hinv2, by omega⟩
    · next e st1 hstep =>
      cases hrun
      have h1 := dfs_fetch_post R fuel r wd st hinv _ _ hstep
      exact fetchPostL_err st e st' h1.1
    · next st1 hstep =>
      cases hrun
      have h1 := dfs_fetch_post R fuel r wd st hinv _ _ hstep
      exact fetchPostL_fuelOut st st' (h1.2.2 rfl)


/-- C4 (corrected): in the sequential semantics of the tree builder the
fetch-once invariant holds - the canonical locators fetched over the
whole call are pairwise distinct, and a completed call creates exactly
one TreeNode per fetch, hence at most one per canonical locator.  Under
the concurrent Promise.all fan-out the visited check and the visited
insertion are separated by the awaited require, so several roots
reaching a shared file before any of them records it can each fetch it
once; see promise_fanout_double_fetch. -/
theorem gatherDepenencyTree_fetch_once (roots : List String) (wd : String)
    (R : ResolverEngine ε) (fuel : Nat) :
    ((gatherDepenencyTree roots wd R fuel).2.reqTrace.map (fun en => en.url)).Nodup
      ∧ ∀ res, (gatherDepenencyTree roots wd R fuel).1 = .ok res →
          res.length = (gatherDepenencyTree roots wd R fuel).2.reqTrace.length := by
  have hinv0 : TInv (ε := ε) ⟨[], [], []⟩ :=
    ⟨List.nodup_nil, fun en hen => absurd hen (List.not_mem_nil en)⟩
  cases hr : rootsLoop R fuel wd roots ⟨[], [], []⟩ with
  | mk out0 st0 =>
    have hpost := rootsLoop_fetch_post R fuel wd roots ⟨[], [], []⟩ hinv0 _ _ hr
    cases out0 with
    | ok u =>
      have h2 : gatherDepenencyTree roots wd R fuel = (.ok st0.result, st0) := by
        unfold gatherDepenencyTree
        rw [hr]
      have h1 : (gatherDepenencyTree roots wd R fuel).1 = .ok st0.result := by rw [h2]
      have hst : (gatherDepenencyTree roots wd R fuel).2 = st0 := by rw [h2]
      obtain ⟨hinv2, hlen2⟩ := hpost.2.1 u rfl
      refine ⟨?_, ?_⟩
      · rw [hst]
        exact hinv2.1
      · intro res hres
        rw [h1] at hres
        cases hres
        rw [hst]
        simp only [List.length_nil] at hlen2
        omega
    | err e =>
      have h2 : gatherDepenencyTree roots wd R fuel = (.err e, st0) := by
        unfold gatherDepenencyTree
        rw [hr]
      have h1 : (gatherDepenencyTree roots wd R fuel).1 = .err e := by rw [h2]
      have hst : (gatherDepenencyTree roots wd R fuel).2 = st0 := by rw [h2]
      refine ⟨?_, ?_⟩
      · rw [hst]
        exact hpost.1
      · intro res hres
        rw [h1] at hres
        exact RunOut.noConfusion hres
    | fuelOut =>
      have h2 : gatherDepenencyTree roots wd R fuel = (.fuelOut, st0) := by
        unfold gatherDepenencyTree
        rw [hr]
      have h1 : (gatherDepenencyTree roots wd R fuel).1 = .fuelOut := by rw [h2]
      have hst : (gatherDepenencyTree roots wd R fuel).2 = st0 := by rw [h2]
      refine ⟨?_, ?_⟩
      · rw [hst]
        exact hpost.1
      · intro res hres
        rw [h1] at hres
        exact RunOut.noConfusion hres

/-- Witness for the corrected C4 on the sequential run with two roots
sharing the file f: three fetches, pairwise distinct locators, three
nodes. -/
theorem gatherDepenencyTree_fetch_once_witness :
    ((gatherDepenencyTree ["r1", "r2"] "/" resolverShared 10).1
        = .ok [⟨"f", "f", "", "p", []⟩,
               ⟨"r1", "r1", "import \"f\";", "p", [⟨"f", "f"⟩]⟩,
               ⟨"r2", "r2", "import \"f\";", "p", [⟨"f", "f"⟩]⟩])
      ∧ ([(⟨"f", "f", "", "p", []⟩ : ImportTreeNode),
          ⟨"r1", "r1", "import \"f\";", "p", [⟨"f", "f"⟩]⟩,
          ⟨"r2", "r2", "import \"f\";", "p", [⟨"f", "f"⟩]⟩]).length
          = (gatherDepenencyTree ["r1", "r2"] "/" resolverShared 10).2.reqTrace.length :=
  ⟨by decide,
   (gatherDepenencyTree_fetch_once ["r1", "r2"] "/" resolverShared 10).2
     [⟨"f", "f", "", "p", []⟩,
      ⟨"r1", "r1", "import \"f\";", "p", [⟨"f", "f"⟩]⟩,
      ⟨"r2", "r2", "import \"f\";", "p", [⟨"f", "f"⟩]⟩]
     (by decide)⟩

/-- C4 counterexample: under the FIFO microtask interleaving of the
Promise.all fan-out, two roots that both import the shared file f each
fetch it - the require trace holds the canonical locator f twice and
the result holds two TreeNodes for f - whereas the sequential semantics
of the same input fetches f exactly once. -/
theorem promise_fanout_double_fetch :
    (((gatherDepenencyTreeConc ["r1", "r2"] "/" resolverShared 40).2.reqTrace.map
        (fun en => en.url)).count "f" = 2)
      ∧ (((gatherDepenencyTreeConc ["r1", "r2"] "/" resolverShared 40).2.result.map
          (fun n => n.url)).count "f" = 2)
      ∧ (gatherDepenencyTreeConc ["r1", "r2"] "/" resolverShared 40).1
          = .ok [⟨"f", "f", "", "p", []⟩,
                 ⟨"r1", "r1", "import \"f\";", "p", [⟨"f", "f"⟩]⟩,
                 ⟨"f", "f", "", "p", []⟩,
                 ⟨"r2", "r2", "import \"f\";", "p", [⟨"f", "f"⟩]⟩]
      ∧ (((gatherDepenencyTree ["r1", "r2"] "/" resolverShared 10).2.reqTrace.map
          (fun en => en.url)).count "f" = 1) := by
  exact ⟨by decide, by decide, by decide, by decide⟩

/-! ## Claim C5 -/

/-- The number of canonical urls from a universe not yet visited. -/
def freeCount (U visited : List String) : Nat :=
  (U.filter (fun u => decide (u ∉ visited))).length

/-- The free count never exceeds the universe size. -/
theorem freeCount_le (U visited : List String) : freeCount U visited ≤ U.length :=
  List.length_filter_le _ _

/-- Growing the visited set shrinks the free count. -/
theorem freeCount_mono (U : List String) :
    ∀ (v v2 : List String), v ⊆ v2 → freeCount U v2 ≤ freeCount U v := by
  induction U with
  | nil => intro v v2 _; exact Nat.le_refl _
  | cons x xs ih =>
    intro v v2 hsub
    unfold freeCount
    rw [List.filter_cons, List.filter_cons]
    by_cases hx2 : x ∈ v2
    · rw [if_neg (by simp [hx2])]
      by_cases hxv : x ∈ v
      · rw [if_neg (by simp [hxv])]
        exact ih v v2 hsub
      · rw [if_pos (by simp [hxv])]
        simp only [List.length_cons]
        exact Nat.le_succ_of_le (ih v v2 hsub)
    · have hxv : x ∉ v := fun hc => hx2 (hsub hc)
      rw [if_pos (by simp [hx2]), if_pos (by simp [hxv])]
      simp only [List.length_cons]
      exact Nat.succ_le_succ (ih v v2 hsub)

/-- Visiting a fresh url from the universe strictly shrinks the free
count. -/
theorem freeCount_cons_lt :
    ∀ (U v : List String) (u : String), u ∈ U → u ∉ v →
      freeCount U (u :: v) < freeCount U v := by
  intro U
  induction U with
  | nil => intro v u hU _; cases hU
  | cons x xs ih =>
    intro v u hU hv
    unfold freeCount
    rw [List.filter_cons, List.filter_cons]
    by_cases hx : x = u
    · subst hx
      rw [if_neg (by simp), if_pos (by simp [hv])]
      simp only [List.length_cons]
      have hle := freeCount_mono xs v (x :: v) (fun a ha => List.mem_cons_of_mem x ha)
      unfold freeCount at hle
      omega
    · rcases List.mem_cons.mp hU with he | hxs
      · exact absurd he.symm hx
      · by_cases hxv : x ∈ v
        · rw [if_neg (by simp [List.mem_cons, hxv]), if_neg (by simp [hxv])]
          exact ih v u hxs hv
        · have hxuv : x ∉ u :: v := by
            intro hc
            rcases List.mem_cons.mp hc with h1 | h2
            · exact hx h1
            · exact hxv h2
          rw [if_pos (by simp [hxuv]), if_pos (by simp [hxv])]
          simp only [List.length_cons]
          exact Nat.succ_lt_succ (ih v u hxs hv)

/-- The child loop only grows the visited set. -/
theorem dfsList_visited_mono (dfsF : String → String → TState ε → DfsOut ε × TState ε)
    (hF : ∀ (u c : String) (st : TState ε) (out : DfsOut ε) (st' : TState ε),
      dfsF u c st = (out, st') → st.visited ⊆ st'.visited) :
    ∀ (l : List String) (cwd : String) (st : TState ε) (out : RunOut ε (List ImportEdge))
      (st' : TState ε),
      dfsList dfsF l cwd st = (out, st') → st.visited ⊆ st'.visited := by
  intro l
  induction l with
  | nil =>
    intro cwd st out st' hrun
    unfold dfsList at hrun
    cases hrun
    exact fun a ha => ha
  | cons uri rest ih =>
    intro cwd st out st' hrun
    unfold dfsList at hrun
    split at hrun
    · next url st1 hstep =>
      have h1 := hF uri cwd st _ _ hstep
      split at hrun
      · next es st2 hrest =>
        cases hrun
        exact fun a ha => (ih cwd st1 _ _ hrest) (h1 ha)
      · next e st2 hrest =>
        cases hrun
        exact fun a ha => (ih cwd st1 _ _ hrest) (h1 ha)
      · next st2 hrest =>
        cases hrun
        exact fun a ha => (ih cwd st1 _ _ hrest) (h1 ha)
    · next e st1 hstep =>
      cases hrun
      exact hF uri cwd st _ _ hstep
    · next st1 hstep =>
      cases hrun
      exact hF uri cwd st _ _ hstep

/-- A dfs call only grows the visited set. -/
theorem dfs_visited_mono (R : ResolverEngine ε) :
    ∀ (fuel : Nat) (uri cwd : String) (st : TState ε) (out : DfsOut ε) (st' : TState ε),
      dfs R fuel uri cwd st = (out, st') → st.visited ⊆ st'.visited := by
  intro fuel
  induction fuel with
  | zero =>
    intro uri cwd st out st' hrun
    unfold dfs at hrun
    cases hrun
    exact fun a ha => ha
  | succ fuel ih =>
    intro uri cwd st out st' hrun
    unfold dfs at hrun
    split at hrun
    · cases hrun
      exact fun a ha => ha
    · next url hres =>
      split at hrun
      · cases hrun
        exact fun a ha => ha
      · next hnot =>
        split at hrun
        · next e hreq =>
          cases hrun
          exact fun a ha => ha
        · next f hreq =>
          split at hrun
          · next es st2 hrest =>
            cases hrun
            have h2 := dfsList_visited_mono (dfs R fuel) ih _ _ _ _ _ hrest
            exact fun a ha => h2 (List.mem_cons_of_mem _ ha)
          · next e st2 hrest =>
            cases hrun
            have h2 := dfsList_visited_mono (dfs R fuel) ih _ _ _ _ _ hrest
            exact fun a ha => h2 (List.mem_cons_of_mem _ ha)
          · next st2 hrest =>
            cases hrun
            have h2 := dfsList_visited_mono (dfs R fuel) ih _ _ _ _ _ hrest
            exact fun a ha => h2 (List.mem_cons_of_mem _ ha)

/-- The child loop cannot exhaust its fuel while fewer urls remain
unvisited than the fuel of the recursive calls allows. -/
theorem dfsList_no_fuelOut (U : List String) (n : Nat)
    (dfsF : String → String → TState ε → DfsOut ε × TState ε)
    (hFm : ∀ (u c : String) (st : TState ε) (out : DfsOut ε) (st' : TState ε),
      dfsF u c st = (out, st') → st.visited ⊆ st'.visited)
    (hFn : ∀ (u c : String) (st : TState ε),
      freeCount U st.visited < n → (dfsF u c st).1 ≠ .fuelOut) :
    ∀ (l : List String) (cwd : String) (st : TState ε),
      freeCount U st.visited < n → (dfsList dfsF l cwd st).1 ≠ .fuelOut := by
  intro l
  induction l with
  | nil =>
    intro cwd st _ hcon
    exact RunOut.noConfusion hcon
  | cons uri rest ih =>
    intro cwd st hfree hcon
    unfold dfsList at hcon
    split at hcon
    · next url st1 hstep =>
      split at hcon
      · next es st2 hrest => exact RunOut.noConfusion hcon
      · next e st2 hrest => exact RunOut.noConfusion hcon
      · next st2 hrest =>
        have h1 := hFm uri cwd st _ _ hstep
        have hfree1 : freeCount U st1.visited < n :=
          Nat.lt_of_le_of_lt (freeCount_mono U st.visited st1.visited h1) hfree
        exact ih cwd st1 hfree1 (by rw [hrest])
    · next e st1 hstep => exact RunOut.noConfusion hcon
    · next st1 hstep =>
      exact hFn uri cwd st hfree (by rw [hstep])

/-- With all canonical urls drawn from a finite universe, a dfs call
with more fuel than unvisited urls never exhausts its fuel. -/
theorem dfs_no_fuelOut (R : ResolverEngine ε) (U : List String)
    (hU : ∀ (u c r : String), R.resolve u c = .ok r → r ∈ U) :
    ∀ (fuel : Nat) (uri cwd : String) (st : TState ε),
      freeCount U st.visited < fuel → (dfs R fuel uri cwd st).1 ≠ .fuelOut := by
  intro fuel
  induction fuel with
  | zero =>
    intro uri cwd st hfree
    exact absurd hfree (Nat.not_lt_zero _)
  | succ fuel ih =>
    intro uri cwd st hfree hcon
    unfold dfs at hcon
    split at hcon
    · exact DfsOut.noConfusion hcon
    · next url hres =>
      split at hcon
      · exact DfsOut.noConfusion hcon
      · next hnot =>
        split at hcon
        · next e hreq => exact DfsOut.noConfusion hcon
        · next f hreq =>
          split at hcon
          · next es st2 hrest => exact DfsOut.noConfusion hcon
          · next e st2 hrest => exact DfsOut.noConfusion hcon
          · next st2 hrest =>
            have hurl : url ∈ U := hU uri cwd url hres
            have hlt := freeCount_cons_lt U st.visited url hurl hnot
            have hfree1 : freeCount U (url :: st.visited) < fuel := by omega
            exact dfsList_no_fuelOut U fuel (dfs R fuel)
              (fun u c s o s2 h => dfs_visited_mono R fuel u c s o s2 h)
              (fun u c s hf => ih u c s hf)
              (findImports f) (pathDirname url)
              ⟨url :: st.visited, st.result,
                st.reqTrace ++ [⟨uri, cwd, url, Except.ok f⟩]⟩
              hfree1 (by rw [hrest])

/-- With all canonical urls drawn from a finite universe and more fuel
than the size of the universe, the whole tree traversal terminates
normally (it never exhausts its fuel), cycles included. -/
theorem gatherDepenencyTree_terminates (roots : List String) (wd : String)
    (R : ResolverEngine ε) (fuel : Nat) (U : List String)
    (hU : ∀ (u c r : String), R.resolve u c = .ok r → r ∈ U) (hf : U.length < fuel) :
    (gatherDepenencyTree roots wd R fuel).1 ≠ .fuelOut := by
  have hloop : ∀ (rs : List String) (st : TState ε),
      (rootsLoop R fuel wd rs st).1 ≠ .fuelOut := by
    intro rs
    induction rs with
    | nil =>
      intro st hcon
      exact RunOut.noConfusion hcon
    | cons r rest ihr =>
      intro st hcon
      unfold rootsLoop at hcon
      split at hcon
      · next v st1 hstep => exact ihr st1 hcon
      · next e st1 hstep => exact RunOut.noConfusion hcon
      · next st1 hstep =>
        have hfree : freeCount U st.visited < fuel :=
          Nat.lt_of_le_of_lt (freeCount_le U st.visited) hf
        exact dfs_no_fuelOut R U hU fuel r wd st hfree (by rw [hstep])
  intro hcon
  unfold gatherDepenencyTree at hcon
  split at hcon
  · exact RunOut.noConfusion hcon
  · exact RunOut.noConfusion hcon
  · next st1 hr => exact hloop roots ⟨[], [], []⟩ (by rw [hr])


/-- C5: on the two-file cycle A-B the tree traversal terminates and
produces exactly one TreeNode for A and one for B, fetching each
exactly once (the second encounter of A returns from the visited set
without re-expansion); and in general, whenever the canonical urls of
the resolver range over a finite universe smaller than the fuel, the
traversal never exhausts its fuel, cycles included. -/
theorem buildTree_cycle_safe :
    ((gatherDepenencyTree ["A"] "/" resolverCyc 10).1
        = .ok [⟨"B", "B", "import \"A\";", "p", [⟨"A", "A"⟩]⟩,
               ⟨"A", "A", "import \"B\";", "p", [⟨"B", "B"⟩]⟩])
      ∧ (((gatherDepenencyTree ["A"] "/" resolverCyc 10).2.result.map
            (fun n => n.url)).count "A" = 1)
      ∧ (((gatherDepenencyTree ["A"] "/" resolverCyc 10).2.result.map
            (fun n => n.url)).count "B" = 1)
      ∧ ((gatherDepenencyTree ["A"] "/" resolverCyc 10).2.reqTrace.map
            (fun en => en.url)) = ["A", "B"]
      ∧ (∀ {ε2 : Type} (R : ResolverEngine ε2) (roots : List String) (wd : String)
            (fuel : Nat) (U : List String),
          (∀ (u c r : String), R.resolve u c = .ok r → r ∈ U) → U.length < fuel →
          (gatherDepenencyTree roots wd R fuel).1 ≠ .fuelOut) := by
  refine ⟨by decide, by decide, by decide, by decide, ?_⟩
  intro ε2 R roots wd fuel U hU hf
  exact gatherDepenencyTree_terminates roots wd R fuel U hU hf

/-- Witness for C5: the cycle resolver has canonical urls in the
universe A, B, and the traversal with fuel ten does not exhaust it. -/
theorem buildTree_cycle_safe_witness :
    (∀ (u c r : String), resolverCyc.resolve u c = .ok r → r ∈ ["A", "B"])
      ∧ (["A", "B"] : List String).length < 10
      ∧ (gatherDepenencyTree ["A"] "/" resolverCyc 10).1 ≠ .fuelOut := by
  have hU : ∀ (u c r : String), resolverCyc.resolve u c = .ok r → r ∈ ["A", "B"] := by
    intro u c r h
    have h2 : (if u = "A" then Except.ok "A"
        else if u = "B" then Except.ok "B"
        else (Except.error "NotFound" : Except String String)) = Except.ok r := h
    split at h2
    · injection h2 with h3
      subst h3
      decide
    · split at h2
      · injection h2 with h3
        subst h3
        decide
      · exact Except.noConfusion h2
  exact ⟨hU, by decide,
    buildTree_cycle_safe.2.2.2.2 resolverCyc ["A"] "/" 10 ["A", "B"] hU (by decide)⟩

/-! ## Claim C10 -/

/-- C10 (corrected): the locator a dfs call records on an edge depends
on whether its target was already visited - the call returns either the
canonical url of resolver.resolve together with the fact that it was
already visited, or the url field of the file from resolver.require for
a freshly expanded target; and whenever resolve always agrees with the
url field of require, every dfs return value equals the resolve url of
its reference and search directory, so all edges with equal reference
and search directory carry equal locators.  The converse implication
does not hold; see edge_locator_converse_fails. -/
theorem dfs_edge_locator_dichotomy :
    (∀ {ε2 : Type} (R : ResolverEngine ε2) (fuel : Nat) (uri cwd : String)
        (st : TState ε2) (v : String) (st' : TState ε2),
        dfs R fuel uri cwd st = (.ok v, st') →
        (R.resolve uri cwd = .ok v ∧ v ∈ st.visited)
          ∨ (∃ f, R.require uri cwd = .ok f ∧ v = f.url))
      ∧ (∀ {ε2 : Type} (R : ResolverEngine ε2),
          (∀ (r d : String) (f : ImportFile), R.require r d = .ok f →
            R.resolve r d = .ok f.url) →
          ∀ (fuel : Nat) (uri cwd : String) (st : TState ε2) (v : String) (st' : TState ε2),
            dfs R fuel uri cwd st = (.ok v, st') → R.resolve uri cwd = .ok v) := by
  have hmain : ∀ {ε2 : Type} (R : ResolverEngine ε2) (fuel : Nat) (uri cwd : String)
      (st : TState ε2) (v : String) (st' : TState ε2),
      dfs R fuel uri cwd st = (.ok v, st') →
      (R.resolve uri cwd = .ok v ∧ v ∈ st.visited)
        ∨ (∃ f, R.require uri cwd = .ok f ∧ v = f.url) := by
    intro ε2 R fuel uri cwd st v st' h
    cases fuel with
    | zero =>
      unfold dfs at h
      injection h with h1 h2
      exact DfsOut.noConfusion h1
    | succ fuel =>
      unfold dfs at h
      split at h
      · injection h with h1 h2
        exact DfsOut.noConfusion h1
      · next url hres =>
        split at h
        · next hmem =>
          injection h with h1 h2
          injection h1 with h3
          subst h3
          exact Or.inl ⟨hres, hmem⟩
        · next hnot =>
          split at h
          · next e hreq =>
            injection h with h1 h2
            exact DfsOut.noConfusion h1
          · next f hreq =>
            split at h
            · next es st2 hrest =>
              injection h with h1 h2
              injection h1 with h3
              exact Or.inr ⟨f, hreq, h3.symm⟩
            · next e st2 hrest =>
              injection h with h1 h2
              exact DfsOut.noConfusion h1
            · next st2 hrest =>
              injection h with h1 h2
              exact DfsOut.noConfusion h1
  refine ⟨hmain, ?_⟩
  intro ε2 R hagree fuel uri cwd st v st' h
  rcases hmain R fuel uri cwd st v st' h with ⟨hres, _⟩ | ⟨f, hreq, hv⟩
  · exact hres
  · rw [hv]
    exact hagree uri cwd f hreq

/-- Witness for the corrected C10 at a concrete successful dfs call. -/
theorem dfs_edge_locator_dichotomy_witness :
    ((dfs resolverCyc 10 "A" "/" ⟨[], [], []⟩).1 = .ok "A")
      ∧ ((resolverCyc.resolve "A" "/" = .ok "A"
            ∧ "A" ∈ (⟨[], [], []⟩ : TState String).visited)
          ∨ (∃ f, resolverCyc.require "A" "/" = .ok f ∧ "A" = f.url)) := by
  have h1 : (dfs resolverCyc 10 "A" "/" ⟨[], [], []⟩).1 = .ok "A" := by decide
  have h2 : dfs resolverCyc 10 "A" "/" ⟨[], [], []⟩
      = (.ok "A", (dfs resolverCyc 10 "A" "/" ⟨[], [], []⟩).2) := by
    rw [← h1]
  exact ⟨h1, dfs_edge_locator_dichotomy.1 resolverCyc 10 "A" "/" ⟨[], [], []⟩ "A" _ h2⟩

/-- One expansion step of dfs under the import-free resolver, written
out: the whole step is a definitional computation except the visited
test. -/
theorem dfs_plain_step (fuel : Nat) (uri cwd : String) (st : TState String) :
    dfs resolverPlain (fuel + 1) uri cwd st
      = if uri ∈ st.visited then (DfsOut.ok uri, st)
        else (DfsOut.ok "u0",
          ⟨uri :: st.visited,
           st.result ++ [⟨uri, "u0", "", "p0", []⟩],
           st.reqTrace ++ [⟨uri, cwd, uri, Except.ok ⟨"u0", "", "p0"⟩⟩]⟩) := rfl

/-- Under the import-free resolver every node a dfs call adds has an
empty edge list. -/
theorem dfs_plain_no_imports (fuel : Nat) (uri cwd : String) (st : TState String)
    (h : ∀ n ∈ st.result, n.imports = []) :
    ∀ n ∈ (dfs resolverPlain fuel uri cwd st).2.result, n.imports = [] := by
  cases fuel with
  | zero => exact h
  | succ fuel =>
    rw [dfs_plain_step]
    by_cases hmem : uri ∈ st.visited
    · rw [if_pos hmem]
      exact h
    · rw [if_neg hmem]
      intro n hn
      rcases List.mem_append.mp hn with h1 | h2
      · exact h n h1
      · rw [List.mem_singleton.mp h2]

/-- Under the import-free resolver every node the roots loop collects
has an empty edge list. -/
theorem rootsLoop_plain_no_imports (fuel : Nat) (wd : String) :
    ∀ (roots : List String) (st : TState String),
      (∀ n ∈ st.result, n.imports = []) →
      ∀ out st', rootsLoop resolverPlain fuel wd roots st = (out, st') →
        ∀ n ∈ st'.result, n.imports = [] := by
  intro roots
  induction roots with
  | nil =>
    intro st h out st' hrun
    unfold rootsLoop at hrun
    cases hrun
    exact h
  | cons r rest ih =>
    intro st h out st' hrun
    unfold rootsLoop at hrun
    split at hrun
    · next v st1 hstep =>
      have h1 : ∀ n ∈ st1.result, n.imports = [] := by
        have h2 := dfs_plain_no_imports fuel r wd st h
        rw [hstep] at h2
        exact h2
      exact ih st1 h1 out st' hrun
    · next e st1 hstep =>
      cases hrun
      have h2 := dfs_plain_no_imports fuel r wd st h
      rw [hstep] at h2
      exact h2
    · next st1 hstep =>
      cases hrun
      have h2 := dfs_plain_no_imports fuel r wd st h
      rw [hstep] at h2
      exact h2

/-- Under the import-free resolver every node of a whole tree build has
an empty edge list. -/
theorem gatherDepenencyTree_plain_no_imports (roots : List String) (wd : String)
    (fuel : Nat) :
    ∀ n ∈ (gatherDepenencyTree roots wd resolverPlain fuel).2.result, n.imports = [] := by
  cases hr : rootsLoop resolverPlain fuel wd roots ⟨[], [], []⟩ with
  | mk out0 st0 =>
    have hbase := rootsLoop_plain_no_imports fuel wd roots ⟨[], [], []⟩
      (fun n hn => absurd hn (List.not_mem_nil n)) out0 st0 hr
    cases out0 with
    | ok u =>
      have h2 : gatherDepenencyTree roots wd resolverPlain fuel = (.ok st0.result, st0) := by
        unfold gatherDepenencyTree
        rw [hr]
      rw [h2]
      exact hbase
    | err e =>
      have h2 : gatherDepenencyTree roots wd resolverPlain fuel = (.err e, st0) := by
        unfold gatherDepenencyTree
        rw [hr]
      rw [h2]
      exact hbase
    | fuelOut =>
      have h2 : gatherDepenencyTree roots wd resolverPlain fuel = (.fuelOut, st0) := by
        unfold gatherDepenencyTree
        rw [hr]
      rw [h2]
      exact hbase

/-- C10 counterexample to the claimed equivalence: for the import-free
resolver, every input produces only edge-free nodes, so all edges
pointing to the same file trivially carry equal locators, while
resolver.resolve never equals the url field of resolver.require. -/
theorem edge_locator_converse_fails :
    (∀ (roots : List String) (wd : String) (fuel : Nat),
        ∀ n1 ∈ (gatherDepenencyTree roots wd resolverPlain fuel).2.result,
        ∀ n2 ∈ (gatherDepenencyTree roots wd resolverPlain fuel).2.result,
        ∀ e1 ∈ n1.imports, ∀ e2 ∈ n2.imports, e1.uri = e2.uri → e1.url = e2.url)
      ∧ resolverPlain.resolve "r" "d" = .ok "r"
      ∧ resolverPlain.require "r" "d" = .ok ⟨"u0", "", "p0"⟩
      ∧ ("r" : String) ≠ "u0" := by
  refine ⟨?_, rfl, rfl, by decide⟩
  intro roots wd fuel n1 hn1 n2 hn2 e1 he1 e2 he2 _
  have h1 := gatherDepenencyTree_plain_no_imports roots wd fuel n1 hn1
  rw [h1] at he1
  exact absurd he1 (List.not_mem_nil e1)

end RE
